import Mathlib

/-!
Verification of the Fieldpay debug-script repository.

Python strings are modelled as lists of Unicode code points (`PyStr`),
bytes as natural numbers below 256.  Each script's pure logic is
translated into executable Lean definitions; effectful steps
(subprocess calls, HTTP requests, `input`) are modelled as oracle
parameters, and the observable behaviour (prints, spawned requests) as
explicit action traces.
-/

/-- Python strings are modelled as lists of Unicode code points. -/
abbrev PyStr := List Nat

/-- Code points of a Lean string literal, used to embed Python string literals. -/
def pystr (s : String) : PyStr := s.toList.map Char.toNat

/-- A Unicode scalar value: in range and not a surrogate.  Python `str.encode`
produces UTF-8 only for such code points (Lean `Char` guarantees this). -/
def ScalarValue (n : Nat) : Prop := n < 1114112 ∧ (n < 55296 ∨ 57343 < n)

instance (n : Nat) : Decidable (ScalarValue n) := by
  unfold ScalarValue; infer_instance

theorem char_scalar (c : Char) : ScalarValue c.toNat := by
  have h := c.valid
  rcases h with h | ⟨h1, h2⟩
  · exact ⟨by simpa [Char.toNat] using Nat.lt_trans h (by norm_num), Or.inl h⟩
  · exact ⟨h2, Or.inr h1⟩

theorem pystr_scalar (s : String) : ∀ c ∈ pystr s, ScalarValue c := by
  intro c hc
  simp only [pystr, List.mem_map] at hc
  obtain ⟨ch, _, rfl⟩ := hc
  exact char_scalar ch

/-- Concatenated map, used to model per-character string transforms. -/
def catMap (f : α → List β) : List α → List β
  | [] => []
  | a :: l => f a ++ catMap f l

@[simp] theorem catMap_nil (f : α → List β) : catMap f [] = [] := rfl

@[simp] theorem catMap_cons (f : α → List β) (a : α) (l : List α) :
    catMap f (a :: l) = f a ++ catMap f l := rfl

theorem catMap_append (f : α → List β) (l1 l2 : List α) :
    catMap f (l1 ++ l2) = catMap f l1 ++ catMap f l2 := by
  induction l1 with
  | nil => simp
  | cons a l ih => simp [ih]

/-- UTF-8 encoding of a single code point (CPython `str.encode("utf-8")`
restricted to valid scalar values, on which it never raises). -/
def utf8EncodeChar (c : Nat) : List Nat :=
  if c < 128 then [c]
  else if c < 2048 then [192 + c / 64, 128 + c % 64]
  else if c < 65536 then [224 + c / 4096, 128 + c / 64 % 64, 128 + c % 64]
  else [240 + c / 262144, 128 + c / 4096 % 64, 128 + c / 64 % 64, 128 + c % 64]

/-- UTF-8 encoding of a whole code-point string. -/
def utf8Encode (l : PyStr) : List Nat := catMap utf8EncodeChar l

theorem utf8EncodeChar_ne_nil (c : Nat) : utf8EncodeChar c ≠ [] := by
  unfold utf8EncodeChar
  split
  · simp
  · split
    · simp
    · split <;> simp

theorem utf8EncodeChar_lt_256 (c : Nat) (hc : c < 1114112) :
    ∀ b ∈ utf8EncodeChar c, b < 256 := by
  intro b hb
  unfold utf8EncodeChar at hb
  split at hb
  · simp at hb; omega
  · split at hb
    · simp at hb
      rcases hb with h | h <;> omega
    · split at hb
      · simp at hb
        rcases hb with h | h | h <;> omega
      · simp at hb
        rcases hb with h | h | h | h <;> omega

/-- Continuation byte of a UTF-8 sequence. -/
def ContByte (b : Nat) : Prop := 128 ≤ b ∧ b < 192

instance (b : Nat) : Decidable (ContByte b) := by unfold ContByte; infer_instance

/-- Valid second byte of a three-byte UTF-8 sequence headed by `b`
(overlong and surrogate encodings rejected, as in the CPython decoder). -/
def Cont3Ok (b b2 : Nat) : Prop :=
  (b = 224 ∧ 160 ≤ b2 ∧ b2 < 192) ∨ (b = 237 ∧ 128 ≤ b2 ∧ b2 < 160) ∨
    (b ≠ 224 ∧ b ≠ 237 ∧ ContByte b2)

instance (b b2 : Nat) : Decidable (Cont3Ok b b2) := by unfold Cont3Ok ContByte; infer_instance

/-- Valid second byte of a four-byte UTF-8 sequence headed by `b`
(overlong and beyond-U+10FFFF encodings rejected). -/
def Cont4Ok (b b2 : Nat) : Prop :=
  (b = 240 ∧ 144 ≤ b2 ∧ b2 < 192) ∨ (b = 244 ∧ 128 ≤ b2 ∧ b2 < 144) ∨
    (b ≠ 240 ∧ b ≠ 244 ∧ ContByte b2)

instance (b b2 : Nat) : Decidable (Cont4Ok b b2) := by unfold Cont4Ok ContByte; infer_instance

/-- UTF-8 decoding with U+FFFD replacement for invalid sequences, following
the CPython decoder's continuation-byte ranges.  The fuel argument (one unit
per decoded character) makes the recursion structural; `utf8Decode` below
supplies fuel that can never run out. -/
def utf8DecodeF : Nat → List Nat → List Nat
  | 0, _ => []
  | _ + 1, [] => []
  | fuel + 1, b :: rest =>
    if b < 128 then b :: utf8DecodeF fuel rest
    else if 194 ≤ b ∧ b < 224 then
      match rest with
      | b2 :: rest2 =>
        if ContByte b2 then ((b - 192) * 64 + (b2 - 128)) :: utf8DecodeF fuel rest2
        else 65533 :: utf8DecodeF fuel (b2 :: rest2)
      | [] => [65533]
    else if 224 ≤ b ∧ b < 240 then
      match rest with
      | b2 :: rest2 =>
        if Cont3Ok b b2 then
          match rest2 with
          | b3 :: rest3 =>
            if ContByte b3 then
              ((b - 224) * 4096 + (b2 - 128) * 64 + (b3 - 128)) :: utf8DecodeF fuel rest3
            else 65533 :: utf8DecodeF fuel (b3 :: rest3)
          | [] => [65533]
        else 65533 :: utf8DecodeF fuel (b2 :: rest2)
      | [] => [65533]
    else if 240 ≤ b ∧ b < 245 then
      match rest with
      | b2 :: rest2 =>
        if Cont4Ok b b2 then
          match rest2 with
          | b3 :: rest3 =>
            if ContByte b3 then
              match rest3 with
              | b4 :: rest4 =>
                if ContByte b4 then
                  ((b - 240) * 262144 + (b2 - 128) * 4096 + (b3 - 128) * 64 + (b4 - 128)) ::
                    utf8DecodeF fuel rest4
                else 65533 :: utf8DecodeF fuel (b4 :: rest4)
              | [] => [65533]
            else 65533 :: utf8DecodeF fuel (b3 :: rest3)
          | [] => [65533]
        else 65533 :: utf8DecodeF fuel (b2 :: rest2)
      | [] => [65533]
    else 65533 :: utf8DecodeF fuel rest

/-- UTF-8 decoding of a byte string (CPython `bytes.decode("utf-8", "replace")`). -/
def utf8Decode (l : List Nat) : List Nat := utf8DecodeF l.length l

theorem utf8DecodeF_encodeChar (fuel c : Nat) (h : ScalarValue c) (bs : List Nat) :
    utf8DecodeF (fuel + 1) (utf8EncodeChar c ++ bs) = c :: utf8DecodeF fuel bs := by
  obtain ⟨hlt, hsur⟩ := h
  by_cases h1 : c < 128
  · rw [show utf8EncodeChar c = [c] from by simp [utf8EncodeChar, h1]]
    simp only [List.cons_append, List.nil_append, List.append_eq, utf8DecodeF, if_pos h1]
  · by_cases h2 : c < 2048
    · rw [show utf8EncodeChar c = [192 + c / 64, 128 + c % 64] from by
        simp [utf8EncodeChar, h1, h2]]
      simp only [List.cons_append, List.nil_append, List.append_eq, utf8DecodeF]
      rw [if_neg (by omega), if_pos (by omega), if_pos (by unfold ContByte; omega)]
      have : (192 + c / 64 - 192) * 64 + (128 + c % 64 - 128) = c := by omega
      rw [this]
    · by_cases h3 : c < 65536
      · rw [show utf8EncodeChar c = [224 + c / 4096, 128 + c / 64 % 64, 128 + c % 64] from by
          simp [utf8EncodeChar, h1, h2, h3]]
        simp only [List.cons_append, List.nil_append, List.append_eq, utf8DecodeF]
        rw [if_neg (by omega), if_neg (by omega), if_pos (by omega)]
        rw [if_pos (by unfold Cont3Ok ContByte; omega)]
        rw [if_pos (by unfold ContByte; omega)]
        have : (224 + c / 4096 - 224) * 4096 + (128 + c / 64 % 64 - 128) * 64 +
            (128 + c % 64 - 128) = c := by omega
        rw [this]
      · rw [show utf8EncodeChar c =
            [240 + c / 262144, 128 + c / 4096 % 64, 128 + c / 64 % 64, 128 + c % 64] from by
          simp [utf8EncodeChar, h1, h2, h3]]
        simp only [List.cons_append, List.nil_append, List.append_eq, utf8DecodeF]
        rw [if_neg (by omega), if_neg (by omega), if_neg (by omega), if_pos (by omega)]
        rw [if_pos (by unfold Cont4Ok ContByte; omega)]
        rw [if_pos (by unfold ContByte; omega), if_pos (by unfold ContByte; omega)]
        have : (240 + c / 262144 - 240) * 262144 + (128 + c / 4096 % 64 - 128) * 4096 +
            (128 + c / 64 % 64 - 128) * 64 + (128 + c % 64 - 128) = c := by omega
        rw [this]

@[simp] theorem utf8DecodeF_nil (fuel : Nat) : utf8DecodeF fuel [] = [] := by
  cases fuel <;> rfl

theorem utf8DecodeF_encode (l : PyStr) : ∀ fuel : Nat, l.length ≤ fuel →
    (∀ c ∈ l, ScalarValue c) → utf8DecodeF fuel (utf8Encode l) = l := by
  induction l with
  | nil => intro fuel _ _; simp [utf8Encode]
  | cons c t ih =>
    intro fuel hfuel h
    cases fuel with
    | zero => exact absurd hfuel (by simp)
    | succ f =>
      have hf : t.length ≤ f := by simp at hfuel; omega
      show utf8DecodeF (f + 1) (utf8EncodeChar c ++ utf8Encode t) = c :: t
      rw [utf8DecodeF_encodeChar f c (h c (by simp)) (utf8Encode t),
        ih f hf (fun x hx => h x (by simp [hx]))]

theorem utf8Encode_length_ge (l : PyStr) : l.length ≤ (utf8Encode l).length := by
  induction l with
  | nil => simp [utf8Encode]
  | cons c t ih =>
    show (c :: t).length ≤ (utf8EncodeChar c ++ utf8Encode t).length
    have h1 : 1 ≤ (utf8EncodeChar c).length := by
      cases he : utf8EncodeChar c with
      | nil => exact absurd he (utf8EncodeChar_ne_nil c)
      | cons a b => simp
    simp only [List.length_cons, List.length_append]
    omega

theorem utf8_roundtrip (l : PyStr) (h : ∀ c ∈ l, ScalarValue c) :
    utf8Decode (utf8Encode l) = l :=
  utf8DecodeF_encode l (utf8Encode l).length (utf8Encode_length_ge l) h

/-- Code of the uppercase hex digit for `n < 16`, as used by
`urllib.parse.quote`'s percent-escapes. -/
def hexUpper (n : Nat) : Nat := if n < 10 then 48 + n else 55 + n

/-- Value of a hex-digit code point if it is one (upper or lower case),
as accepted by CPython's `_hextobyte` table in `unquote_to_bytes`. -/
def hexVal (c : Nat) : Option Nat :=
  if 48 ≤ c ∧ c ≤ 57 then some (c - 48)
  else if 65 ≤ c ∧ c ≤ 70 then some (c - 55)
  else if 97 ≤ c ∧ c ≤ 102 then some (c - 87)
  else none

/-- The characters never quoted by `urllib.parse.quote` (`_ALWAYS_SAFE`):
ASCII letters, digits, and `_.-~`. -/
def AlwaysSafe (c : Nat) : Prop :=
  (65 ≤ c ∧ c ≤ 90) ∨ (97 ≤ c ∧ c ≤ 122) ∨ (48 ≤ c ∧ c ≤ 57) ∨
    c = 95 ∨ c = 46 ∨ c = 45 ∨ c = 126

instance (c : Nat) : Decidable (AlwaysSafe c) := by unfold AlwaysSafe; infer_instance

/-- Percent-escape of one byte: `%` followed by two uppercase hex digits. -/
def pctByte (b : Nat) : List Nat := [37, hexUpper (b / 16), hexUpper (b % 16)]

/-- Encoding of one character under CPython `urllib.parse.quote_plus` with
`safe=''` (the form `urlencode` uses): a space becomes `+`, an always-safe
character passes through, anything else is percent-escaped byte-by-byte in
UTF-8. -/
def quotePlusChar (c : Nat) : List Nat :=
  if c = 32 then [43]
  else if AlwaysSafe c then [c]
  else catMap pctByte (utf8EncodeChar c)

/-- CPython `urllib.parse.quote_plus` with `safe=''`. -/
def quote_plus (s : PyStr) : PyStr := catMap quotePlusChar s

/-- Join a list of strings with a one-character separator
(Python `sep.join(...)`). -/
def joinSep (sep : Nat) : List PyStr → PyStr
  | [] => []
  | [f] => f
  | f :: g :: rest => f ++ sep :: joinSep sep (g :: rest)

/-- CPython `urllib.parse.urlencode` with its default
`quote_via=quote_plus`, `safe=''`, applied to string keys and values; dict
iteration order (= insertion order) is modelled by the list order. -/
def urlencodePy (params : List (PyStr × PyStr)) : PyStr :=
  joinSep 38 (params.map fun kv => quote_plus kv.1 ++ 61 :: quote_plus kv.2)

/-- Split a string at every occurrence of a character
(Python `s.split(sep)`); always returns at least one piece. -/
def splitOnChar (sep : Nat) : List Nat → List (List Nat)
  | [] => [[]]
  | c :: rest =>
    if c = sep then [] :: splitOnChar sep rest
    else
      match splitOnChar sep rest with
      | h :: t => (c :: h) :: t
      | [] => [[c]]

/-- Decoding of one piece that followed a `%` in CPython's
`unquote_to_bytes`: two leading hex digits become a byte, otherwise the `%`
is kept literally. -/
def decodeBit (bit : List Nat) : List Nat :=
  match bit with
  | a :: b :: rest =>
    match hexVal a, hexVal b with
    | some x, some y => (16 * x + y) :: rest
    | _, _ => 37 :: bit
  | _ => 37 :: bit

/-- CPython `urllib.parse.unquote_to_bytes` on an ASCII run: split on `%`,
keep the first piece, decode the leading hex pair of each later piece. -/
def pctDecode (l : List Nat) : List Nat :=
  match splitOnChar 37 l with
  | [] => []
  | b0 :: bits => b0 ++ catMap decodeBit bits

/-- Maximal runs of a list grouped by a Boolean flag; used to model the
`_asciire` split inside CPython `urllib.parse.unquote`. -/
def groupRuns : List Nat → List (Bool × List Nat)
  | [] => []
  | c :: rest =>
    match groupRuns rest with
    | (b2, run) :: t =>
      if b2 = decide (c < 128) then (b2, c :: run) :: t
      else (decide (c < 128), [c]) :: (b2, run) :: t
    | [] => [(decide (c < 128), [c])]

/-- CPython `urllib.parse.unquote` with `encoding="utf-8"`,
`errors="replace"`: each maximal ASCII run is percent-decoded to bytes and
UTF-8-decoded, non-ASCII characters pass through verbatim. -/
def unquotePy (l : PyStr) : PyStr :=
  catMap (fun br => if br.1 then utf8Decode (pctDecode br.2) else br.2) (groupRuns l)

/-- Replace `+` by a space (the first step of `unquote_plus`, and of the
name/value handling in `parse_qsl`). -/
def plusToSpace (l : PyStr) : PyStr := l.map fun c => if c = 43 then 32 else c

/-- CPython `urllib.parse.unquote_plus`. -/
def unquote_plus (l : PyStr) : PyStr := unquotePy (plusToSpace l)

theorem hexVal_hexUpper (n : Nat) (h : n < 16) : hexVal (hexUpper n) = some n := by
  unfold hexVal hexUpper
  by_cases h10 : n < 10
  · rw [if_pos h10, if_pos (by omega)]
    exact congrArg some (by omega)
  · rw [if_neg h10, if_neg (by omega), if_pos (by omega)]
    exact congrArg some (by omega)

theorem splitOnChar_ne_nil (sep : Nat) (l : List Nat) : splitOnChar sep l ≠ [] := by
  cases l with
  | nil => simp [splitOnChar]
  | cons c rest =>
    by_cases hc : c = sep
    · simp [splitOnChar, hc]
    · simp only [splitOnChar, if_neg hc]
      cases h : splitOnChar sep rest <;> simp

theorem splitOnChar_cons_ne (sep c : Nat) (l : List Nat) (hc : c ≠ sep)
    (h : List Nat) (t : List (List Nat)) (he : splitOnChar sep l = h :: t) :
    splitOnChar sep (c :: l) = (c :: h) :: t := by
  unfold splitOnChar
  rw [if_neg hc, he]

theorem pctDecode_cons_ne (c : Nat) (l : List Nat) (hc : c ≠ 37) :
    pctDecode (c :: l) = c :: pctDecode l := by
  obtain ⟨h, t, he⟩ : ∃ h t, splitOnChar 37 l = h :: t := by
    cases hh : splitOnChar 37 l with
    | nil => exact absurd hh (splitOnChar_ne_nil 37 l)
    | cons a b => exact ⟨a, b, rfl⟩
  unfold pctDecode
  rw [splitOnChar_cons_ne 37 c l hc h t he, he]
  simp

theorem pctDecode_pct (a b x y : Nat) (l : List Nat)
    (hx : hexVal a = some x) (hy : hexVal b = some y) :
    pctDecode (37 :: a :: b :: l) = (16 * x + y) :: pctDecode l := by
  have ha : a ≠ 37 := by
    intro h; subst h; simp [hexVal] at hx
  have hb : b ≠ 37 := by
    intro h; subst h; simp [hexVal] at hy
  obtain ⟨h, t, he⟩ : ∃ h t, splitOnChar 37 l = h :: t := by
    cases hh : splitOnChar 37 l with
    | nil => exact absurd hh (splitOnChar_ne_nil 37 l)
    | cons u v => exact ⟨u, v, rfl⟩
  have e1 : splitOnChar 37 (a :: b :: l) = (a :: b :: h) :: t :=
    splitOnChar_cons_ne 37 a _ ha _ _ (splitOnChar_cons_ne 37 b l hb h t he)
  unfold pctDecode
  rw [show splitOnChar 37 (37 :: a :: b :: l) = [] :: (a :: b :: h) :: t from by
    unfold splitOnChar; rw [if_pos rfl, e1], he]
  simp [decodeBit, hx, hy]

theorem pctDecode_pctBytes (bs l : List Nat) (hb : ∀ b ∈ bs, b < 256) :
    pctDecode (catMap pctByte bs ++ l) = bs ++ pctDecode l := by
  induction bs with
  | nil => simp
  | cons b bs ih =>
    have hb256 : b < 256 := hb b (by simp)
    have e : catMap pctByte (b :: bs) ++ l =
        37 :: hexUpper (b / 16) :: hexUpper (b % 16) :: (catMap pctByte bs ++ l) := by
      simp [pctByte]
    rw [e, pctDecode_pct _ _ _ _ _ (hexVal_hexUpper _ (by omega)) (hexVal_hexUpper _ (by omega)),
      ih (fun x hx => hb x (by simp [hx]))]
    have hbv : 16 * (b / 16) + b % 16 = b := by omega
    rw [hbv]
    simp

/-- The characters that can appear in `quote_plus` output. -/
def QuoteChar (c : Nat) : Prop := AlwaysSafe c ∨ c = 43 ∨ c = 37

theorem hexUpper_safe (n : Nat) (h : n < 16) : AlwaysSafe (hexUpper n) := by
  unfold AlwaysSafe hexUpper
  split <;> omega

theorem catMap_pctByte_chars (bs : List Nat) (hb : ∀ b ∈ bs, b < 256) :
    ∀ x ∈ catMap pctByte bs, x = 37 ∨ AlwaysSafe x := by
  induction bs with
  | nil => simp
  | cons b bs ih =>
    intro x hx
    rcases List.mem_append.mp (by simpa using hx) with h | h
    · simp [pctByte] at h
      rcases h with rfl | rfl | rfl
      · exact Or.inl rfl
      · exact Or.inr (hexUpper_safe _ (by have := hb b (by simp); omega))
      · exact Or.inr (hexUpper_safe _ (by omega))
    · exact ih (fun v hv => hb v (by simp [hv])) x h

theorem quote_plus_chars (s : PyStr) (hs : ∀ c ∈ s, ScalarValue c) :
    ∀ x ∈ quote_plus s, QuoteChar x := by
  induction s with
  | nil => simp [quote_plus]
  | cons c t ih =>
    intro x hx
    rcases List.mem_append.mp (by simpa [quote_plus] using hx) with h | h
    · unfold quotePlusChar at h
      split at h
      · simp at h; subst h; exact Or.inr (Or.inl rfl)
      · split at h
        · simp at h; subst h; exact Or.inl (by assumption)
        · rcases catMap_pctByte_chars _ (utf8EncodeChar_lt_256 c (hs c (by simp)).1) x h with
            h37 | hsafe
          · exact Or.inr (Or.inr h37)
          · exact Or.inl hsafe
    · exact ih (fun v hv => hs v (by simp [hv])) x h

theorem quoteChar_lt_128 (c : Nat) (h : QuoteChar c) : c < 128 := by
  unfold QuoteChar AlwaysSafe at h; omega

theorem quoteChar_bounds (c : Nat) (h : QuoteChar c) :
    c ≠ 38 ∧ c ≠ 61 ∧ c ≠ 35 ∧ c ≠ 63 ∧ c ≠ 47 ∧ c ≠ 58 ∧ c ≠ 91 ∧ c ≠ 93 ∧ 32 < c ∧ c < 128 := by
  unfold QuoteChar AlwaysSafe at h; omega

theorem plusToSpace_eq_self (l : List Nat) (h : ∀ x ∈ l, x ≠ 43) : plusToSpace l = l := by
  induction l with
  | nil => rfl
  | cons c t ih =>
    simp only [plusToSpace, List.map_cons, if_neg (h c (by simp))]
    exact congrArg (c :: ·) (ih fun x hx => h x (by simp [hx]))

theorem groupRuns_ascii (l : List Nat) (h : ∀ c ∈ l, c < 128) (hne : l ≠ []) :
    groupRuns l = [(true, l)] := by
  induction l with
  | nil => exact absurd rfl hne
  | cons c rest ih =>
    have hc : decide (c < 128) = true := decide_eq_true (h c (by simp))
    cases rest with
    | nil => simp [groupRuns, hc]
    | cons d r =>
      have hr := ih (fun x hx => h x (by simp [hx])) (by simp)
      unfold groupRuns
      rw [hr, hc]
      simp

theorem unquotePy_ascii (l : PyStr) (h : ∀ c ∈ l, c < 128) :
    unquotePy l = utf8Decode (pctDecode l) := by
  by_cases hne : l = []
  · subst hne; rfl
  · unfold unquotePy
    rw [groupRuns_ascii l h hne]
    simp

theorem pctDecode_plusToSpace_quote (s : PyStr) (hs : ∀ c ∈ s, ScalarValue c) :
    pctDecode (plusToSpace (quote_plus s)) = utf8Encode s := by
  induction s with
  | nil => rfl
  | cons c t ih =>
    have hsc := hs c (by simp)
    have hst : ∀ v ∈ t, ScalarValue v := fun v hv => hs v (by simp [hv])
    have e : plusToSpace (quote_plus (c :: t)) =
        plusToSpace (quotePlusChar c) ++ plusToSpace (quote_plus t) := by
      simp [quote_plus, plusToSpace]
    rw [e]
    by_cases h32 : c = 32
    · subst h32
      rw [show plusToSpace (quotePlusChar 32) = [32] from rfl]
      rw [show ([32] : List Nat) ++ plusToSpace (quote_plus t) =
        32 :: plusToSpace (quote_plus t) from rfl]
      rw [pctDecode_cons_ne 32 _ (by omega), ih hst]
      simp [utf8Encode, utf8EncodeChar]
    · by_cases hsafe : AlwaysSafe c
      · have h43 : c ≠ 43 := by unfold AlwaysSafe at hsafe; omega
        have h37 : c ≠ 37 := by unfold AlwaysSafe at hsafe; omega
        have h128 : c < 128 := by unfold AlwaysSafe at hsafe; omega
        have e2 : plusToSpace (quotePlusChar c) = [c] := by
          simp [quotePlusChar, h32, hsafe, plusToSpace, h43]
        rw [e2, show [c] ++ plusToSpace (quote_plus t) = c :: plusToSpace (quote_plus t) from rfl,
          pctDecode_cons_ne c _ h37, ih hst]
        have ec : utf8EncodeChar c = [c] := by simp [utf8EncodeChar, h128]
        simp [utf8Encode, ec]
      · have hqc : quotePlusChar c = catMap pctByte (utf8EncodeChar c) := by
          simp [quotePlusChar, h32, hsafe]
        have e2 : plusToSpace (quotePlusChar c) = catMap pctByte (utf8EncodeChar c) := by
          rw [hqc]
          exact plusToSpace_eq_self _ (fun x hx => by
            rcases catMap_pctByte_chars _ (utf8EncodeChar_lt_256 c hsc.1) x hx with h | h
            · omega
            · unfold AlwaysSafe at h; omega)
        rw [e2, pctDecode_pctBytes _ _ (utf8EncodeChar_lt_256 c hsc.1), ih hst]
        simp [utf8Encode]

theorem unquote_plus_quote_plus (s : PyStr) (hs : ∀ c ∈ s, ScalarValue c) :
    unquote_plus (quote_plus s) = s := by
  unfold unquote_plus
  have hascii : ∀ c ∈ plusToSpace (quote_plus s), c < 128 := by
    intro c hc
    simp only [plusToSpace, List.mem_map] at hc
    obtain ⟨x, hx, he⟩ := hc
    have hq := quoteChar_lt_128 x (quote_plus_chars s hs x hx)
    by_cases h43 : x = 43
    · simp [h43] at he; omega
    · simp [h43] at he; omega
  rw [unquotePy_ascii _ hascii, pctDecode_plusToSpace_quote s hs, utf8_roundtrip s hs]

/-- Result of CPython `urllib.parse.urlsplit`. -/
structure SplitResult where
  scheme : PyStr
  netloc : PyStr
  path : PyStr
  query : PyStr
  fragment : PyStr
deriving DecidableEq

/-- Result of CPython `urllib.parse.urlparse`. -/
structure ParseResult where
  scheme : PyStr
  netloc : PyStr
  path : PyStr
  params : PyStr
  query : PyStr
  fragment : PyStr
deriving DecidableEq

/-- ASCII letter. -/
def AsciiAlpha (c : Nat) : Prop := (65 ≤ c ∧ c ≤ 90) ∨ (97 ≤ c ∧ c ≤ 122)

instance (c : Nat) : Decidable (AsciiAlpha c) := by unfold AsciiAlpha; infer_instance

/-- Characters allowed in a URL scheme (`urllib.parse.scheme_chars`). -/
def SchemeChar (c : Nat) : Prop :=
  (65 ≤ c ∧ c ≤ 90) ∨ (97 ≤ c ∧ c ≤ 122) ∨ (48 ≤ c ∧ c ≤ 57) ∨ c = 43 ∨ c = 45 ∨ c = 46

instance (c : Nat) : Decidable (SchemeChar c) := by unfold SchemeChar; infer_instance

/-- The condition under which `urlsplit` recognises a scheme in front of the
first colon: nonempty, leading ASCII letter, all characters scheme chars. -/
def SchemeOkP (pfx : PyStr) : Prop :=
  pfx ≠ [] ∧ AsciiAlpha pfx.headI ∧ ∀ c ∈ pfx, SchemeChar c

instance (pfx : PyStr) : Decidable (SchemeOkP pfx) := by unfold SchemeOkP; infer_instance

/-- ASCII lower-casing, exact on scheme characters (which are ASCII). -/
def lowerAscii (c : Nat) : Nat := if 65 ≤ c ∧ c ≤ 90 then c + 32 else c

/-- Fragment and query extraction, shared by the two netloc branches of
`urlsplit`: the fragment after the first `#`, then the query after the first
`?` of what precedes it (each empty when the delimiter is absent, exactly as
`partition` leaves them). -/
def splitFragQuery (scheme netloc u : PyStr) : SplitResult :=
  let u4 := u.takeWhile fun c => decide (c ≠ 35)
  let fragment := (u.dropWhile fun c => decide (c ≠ 35)).tail
  let path := u4.takeWhile fun c => decide (c ≠ 63)
  let query := (u4.dropWhile fun c => decide (c ≠ 63)).tail
  ⟨scheme, netloc, path, query, fragment⟩

/-- CPython 3.11 `urllib.parse.urlsplit` (with `allow_fragments=True`):
leading C0-control/space characters are stripped, tab/CR/LF removed
everywhere, a scheme before the first colon recognised, a `//`-netloc
delimited by `/?#`, mismatched square brackets rejected with
`ValueError("Invalid IPv6 URL")`.  The NFKC `_checknetloc` check (which can
only fire on non-ASCII netlocs) and `_check_bracketed_host` are not
modelled. -/
def urlsplitE (url : PyStr) : Except PyStr SplitResult :=
  let u1 := (url.dropWhile fun c => decide (c ≤ 32)).filter
    fun c => decide (¬(c = 9 ∨ c = 10 ∨ c = 13))
  let pfx := u1.takeWhile fun c => decide (c ≠ 58)
  let sp :=
    if pfx.length < u1.length ∧ SchemeOkP pfx then (pfx.map lowerAscii, u1.drop (pfx.length + 1))
    else (([] : PyStr), u1)
  let scheme := sp.1
  let u2 := sp.2
  if u2.take 2 = [47, 47] then
    let rest := u2.drop 2
    let netloc := rest.takeWhile fun c => decide (¬(c = 47 ∨ c = 63 ∨ c = 35))
    let u3 := rest.dropWhile fun c => decide (¬(c = 47 ∨ c = 63 ∨ c = 35))
    if (91 ∈ netloc ∧ 93 ∉ netloc) ∨ (93 ∈ netloc ∧ 91 ∉ netloc) then
      Except.error (pystr "Invalid IPv6 URL")
    else Except.ok (splitFragQuery scheme netloc u3)
  else Except.ok (splitFragQuery scheme [] u2)

/-- Index of the last occurrence of `c` in `l` (meaningful when `c ∈ l`),
as Python `str.rfind`. -/
def rfindIdx (c : Nat) (l : PyStr) : Nat :=
  l.length - 1 - (l.reverse.takeWhile fun x => decide (x ≠ c)).length

/-- Index of the first occurrence of `c` in `l` at or after `start`, as
Python `str.find(c, start)`. -/
def findFrom (c : Nat) (l : PyStr) (start : Nat) : Option Nat :=
  let seg := l.drop start
  let pre := seg.takeWhile fun x => decide (x ≠ c)
  if pre.length < seg.length then some (start + pre.length) else none

/-- CPython `urllib.parse._splitparams`, applied by `urlparse` when the path
contains a `;`: the params start after the first `;` of the last path
segment. -/
def splitParamsPy (p : PyStr) : PyStr × PyStr :=
  if 47 ∈ p then
    match findFrom 59 p (rfindIdx 47 p) with
    | some i => (p.take i, p.drop (i + 1))
    | none => (p, [])
  else
    match findFrom 59 p 0 with
    | some i => (p.take i, p.drop (i + 1))
    | none => (p, [])

/-- CPython `urllib.parse.urlparse`. -/
def urlparseE (url : PyStr) : Except PyStr ParseResult :=
  match urlsplitE url with
  | Except.error e => Except.error e
  | Except.ok s =>
    if 59 ∈ s.path then
      let pp := splitParamsPy s.path
      Except.ok ⟨s.scheme, s.netloc, pp.1, pp.2, s.query, s.fragment⟩
    else Except.ok ⟨s.scheme, s.netloc, s.path, [], s.query, s.fragment⟩

/-- CPython `urllib.parse.parse_qsl` with default arguments
(`keep_blank_values=False`, `separator="&"`): empty fields are skipped,
fields without `=` are skipped, fields with an empty value are skipped,
names and values are `+`-to-space replaced then unquoted. -/
def qslField (field : PyStr) : List (PyStr × PyStr) :=
  if field = [] then []
  else
    let name := field.takeWhile fun c => decide (c ≠ 61)
    let rest := field.dropWhile fun c => decide (c ≠ 61)
    if rest = [] then []
    else
      let value := rest.tail
      if value = [] then []
      else [(unquotePy (plusToSpace name), unquotePy (plusToSpace value))]

def parseQsl (qs : PyStr) : List (PyStr × PyStr) :=
  catMap qslField (splitOnChar 38 qs)

/-- Membership of a key in the dict built by `parse_qs` from the
`parse_qsl` pairs. -/
def qsHas (pairs : List (PyStr × PyStr)) (k : PyStr) : Bool :=
  pairs.any fun p => decide (p.1 = k)

/-- First value of a key in the dict built by `parse_qs`
(Python `query_params[k][0]`). -/
def qsFirst (pairs : List (PyStr × PyStr)) (k : PyStr) : Option PyStr :=
  (pairs.find? fun p => decide (p.1 = k)).map fun p => p.2

/-- Substring containment, Python `needle in hay` on strings. -/
def containsSub (needle : PyStr) : PyStr → Bool
  | [] => decide (needle = [])
  | c :: t => needle.isPrefixOf (c :: t) || containsSub needle t

/-- Python `str.endswith`. -/
def endsWithPy (sfx l : PyStr) : Bool := sfx.isSuffixOf l

/-- The required query parameters checked by `validate_url`, in source
order. -/
def requiredParams : List PyStr :=
  [pystr "response_type", pystr "client_id", pystr "redirect_uri", pystr "scope",
    pystr "state", pystr "code_challenge", pystr "code_challenge_method"]

/-- `validate_url` from `test_oauth_url.py`: parses the URL, checks scheme,
domain, endpoint path, the presence of the seven required query parameters
(reporting the first missing one), and the fixed values of three of them.
The `try/except` of the source corresponds to the `Except.error` branch. -/
def validateChecks (p : ParseResult) : Bool × PyStr :=
  if p.scheme ≠ pystr "https" then (false, pystr "URL must use HTTPS")
    else if ¬ containsSub (pystr "netsuite.com") p.netloc then
      (false, pystr "URL must be a NetSuite domain")
    else if ¬ endsWithPy (pystr "/app/login/oauth2/authorize.nl") p.path then
      (false, pystr "Invalid authorization endpoint path")
    else
      let qp := parseQsl p.query
      match requiredParams.find? fun k => ! qsHas qp k with
      | some k => (false, pystr "Missing required parameter: " ++ k)
      | none =>
        if qsFirst qp (pystr "response_type") ≠ some (pystr "code") then
          (false, pystr "response_type must be 'code'")
        else if qsFirst qp (pystr "code_challenge_method") ≠ some (pystr "S256") then
          (false, pystr "code_challenge_method must be 'S256'")
        else if qsFirst qp (pystr "scope") ≠ some (pystr "restlets rest_webservices") then
          (false, pystr "scope must be 'restlets rest_webservices'")
        else (true, pystr "URL is valid")

def validate_url (url : PyStr) : Bool × PyStr :=
  match urlparseE url with
  | Except.error e => (false, pystr "URL validation error: " ++ e)
  | Except.ok p => validateChecks p

/-- SHA-256 working state (FIPS 180-4), eight 32-bit words as naturals. -/
structure Sha8 where
  a : Nat
  b : Nat
  c : Nat
  d : Nat
  e : Nat
  f : Nat
  g : Nat
  h : Nat
deriving DecidableEq

/-- SHA-256 round constants. -/
def sha256K : List Nat :=
  [1116352408, 1899447441, 3049323471, 3921009573, 961987163,
   1508970993, 2453635748, 2870763221, 3624381080, 310598401,
   607225278, 1426881987, 1925078388, 2162078206, 2614888103,
   3248222580, 3835390401, 4022224774, 264347078, 604807628,
   770255983, 1249150122, 1555081692, 1996064986, 2554220882,
   2821834349, 2952996808, 3210313671, 3336571891, 3584528711,
   113926993, 338241895, 666307205, 773529912, 1294757372,
   1396182291, 1695183700, 1986661051, 2177026350, 2456956037,
   2730485921, 2820302411, 3259730800, 3345764771, 3516065817,
   3600352804, 4094571909, 275423344, 430227734, 506948616,
   659060556, 883997877, 958139571, 1322822218, 1537002063,
   1747873779, 1955562222, 2024104815, 2227730452, 2361852424,
   2428436474, 2756734187, 3204031479, 3329325298]

/-- Right rotation of a 32-bit word. -/
def rotr (n x : Nat) : Nat := ((x >>> n) ||| (x <<< (32 - n))) % 4294967296

def sha256Ch (x y z : Nat) : Nat := (x &&& y) ^^^ ((x ^^^ 4294967295) &&& z)

def sha256Maj (x y z : Nat) : Nat := (x &&& y) ^^^ (x &&& z) ^^^ (y &&& z)

def bigS0 (x : Nat) : Nat := rotr 2 x ^^^ rotr 13 x ^^^ rotr 22 x

def bigS1 (x : Nat) : Nat := rotr 6 x ^^^ rotr 11 x ^^^ rotr 25 x

def smallS0 (x : Nat) : Nat := rotr 7 x ^^^ rotr 18 x ^^^ (x >>> 3)

def smallS1 (x : Nat) : Nat := rotr 17 x ^^^ rotr 19 x ^^^ (x >>> 10)

/-- SHA-256 message padding: `0x80`, zeros to 56 mod 64, 64-bit big-endian
bit length. -/
def sha256Pad (msg : List Nat) : List Nat :=
  let L := msg.length
  let k := (119 - L % 64) % 64
  let bits := 8 * L
  msg ++ 128 :: List.replicate k 0 ++
    [bits / 2 ^ 56 % 256, bits / 2 ^ 48 % 256, bits / 2 ^ 40 % 256, bits / 2 ^ 32 % 256,
     bits / 2 ^ 24 % 256, bits / 2 ^ 16 % 256, bits / 2 ^ 8 % 256, bits % 256]

/-- Big-endian 32-bit words of a byte string (length a multiple of 4). -/
def beWords : List Nat → List Nat
  | b1 :: b2 :: b3 :: b4 :: rest =>
    (b1 * 16777216 + b2 * 65536 + b3 * 256 + b4) :: beWords rest
  | _ => []

/-- Message-schedule extension, keeping the schedule reversed (newest word
first) so that `w[i-2]`, `w[i-7]`, `w[i-15]`, `w[i-16]` are fixed offsets. -/
def sha256Extend : Nat → List Nat → List Nat
  | 0, rl => rl
  | n + 1, rl =>
    sha256Extend n
      (((smallS1 (rl.getD 1 0) + rl.getD 6 0 + smallS0 (rl.getD 14 0) + rl.getD 15 0) %
        4294967296) :: rl)

/-- The 64-word message schedule of one block. -/
def sha256Schedule (w16 : List Nat) : List Nat := (sha256Extend 48 w16.reverse).reverse

/-- One SHA-256 compression round. -/
def sha256Round (st : Sha8) (kw : Nat × Nat) : Sha8 :=
  let t1 := (st.h + bigS1 st.e + sha256Ch st.e st.f st.g + kw.1 + kw.2) % 4294967296
  let t2 := (bigS0 st.a + sha256Maj st.a st.b st.c) % 4294967296
  ⟨(t1 + t2) % 4294967296, st.a, st.b, st.c, (st.d + t1) % 4294967296, st.e, st.f, st.g⟩

/-- Compression of one 64-byte block. -/
def sha256Compress (st : Sha8) (w16 : List Nat) : Sha8 :=
  let fin := (sha256K.zip (sha256Schedule w16)).foldl sha256Round st
  ⟨(st.a + fin.a) % 4294967296, (st.b + fin.b) % 4294967296, (st.c + fin.c) % 4294967296,
   (st.d + fin.d) % 4294967296, (st.e + fin.e) % 4294967296, (st.f + fin.f) % 4294967296,
   (st.g + fin.g) % 4294967296, (st.h + fin.h) % 4294967296⟩

def sha256Init : Sha8 :=
  ⟨1779033703, 3144134277, 1013904242, 2773480762,
   1359893119, 2600822924, 528734635, 1541459225⟩

/-- Processing of consecutive 64-byte blocks; the count argument is the
number of blocks, which makes the recursion structural. -/
def sha256BlocksF : Nat → Sha8 → List Nat → Sha8
  | 0, st, _ => st
  | n + 1, st, bytes => sha256BlocksF n (sha256Compress st (beWords (bytes.take 64))) (bytes.drop 64)

/-- Big-endian bytes of a 32-bit word. -/
def wordBytes (x : Nat) : List Nat := [x / 2 ^ 24 % 256, x / 2 ^ 16 % 256, x / 2 ^ 8 % 256, x % 256]

def sha256Digest (st : Sha8) : List Nat :=
  wordBytes st.a ++ wordBytes st.b ++ wordBytes st.c ++ wordBytes st.d ++
    wordBytes st.e ++ wordBytes st.f ++ wordBytes st.g ++ wordBytes st.h

/-- SHA-256 digest of a byte string (`hashlib.sha256(...).digest()`). -/
def sha256 (msg : List Nat) : List Nat :=
  let p := sha256Pad msg
  sha256Digest (sha256BlocksF (p.length / 64) sha256Init p)

/-- The URL-safe base64 alphabet (`base64.urlsafe_b64encode`: standard
alphabet with `+` and `/` replaced by `-` and `_`). -/
def b64Table : List Nat :=
  pystr "ABCDEFGHIJKLMNOPQRSTUVWXYZabcdefghijklmnopqrstuvwxyz0123456789-_"

def b64Char (n : Nat) : Nat := b64Table.getD n 65

/-- URL-safe base64 encoding of a byte string with `=` padding
(`base64.urlsafe_b64encode`). -/
def b64urlEncode : List Nat → List Nat
  | [] => []
  | [b1] => [b64Char (b1 / 4), b64Char (b1 % 4 * 16), 61, 61]
  | [b1, b2] => [b64Char (b1 / 4), b64Char (b1 % 4 * 16 + b2 / 16), b64Char (b2 % 16 * 4), 61]
  | b1 :: b2 :: b3 :: rest =>
    b64Char (b1 / 4) :: b64Char (b1 % 4 * 16 + b2 / 16) :: b64Char (b2 % 16 * 4 + b3 / 64) ::
      b64Char (b3 % 64) :: b64urlEncode rest

/-- Python `str.rstrip(c)`: remove every trailing occurrence of one
character. -/
def rstripChar (c : Nat) (l : PyStr) : PyStr :=
  (l.reverse.dropWhile fun x => decide (x = c)).reverse

/-- `generate_code_challenge` from `test_oauth_url.py`: URL-safe base64 of
the SHA-256 digest of the UTF-8 encoded verifier, with `=` padding
stripped. -/
def generate_code_challenge (code_verifier : PyStr) : PyStr :=
  rstripChar 61 (b64urlEncode (sha256 (utf8Encode code_verifier)))

/-- The alphabet of `generate_code_verifier`:
`string.ascii_letters + string.digits + '-._~'`. -/
def allowed_chars : PyStr :=
  pystr "abcdefghijklmnopqrstuvwxyzABCDEFGHIJKLMNOPQRSTUVWXYZ0123456789-._~"

/-- `generate_code_verifier` from `test_oauth_url.py` with its two random
choices passed in as oracles: `lenRand` models `secrets.randbelow(86)` (so
`lenRand < 86`), and `pick i` models the index drawn by `secrets.choice`
for position `i` (so `pick i < 66`, the alphabet size). -/
def generate_code_verifier (lenRand : Nat) (pick : Nat → Nat) : PyStr :=
  (List.range (lenRand + 43)).map fun i => allowed_chars.getD (pick i) 97

/-- Decimal digits of a natural number, with a fuel argument to keep the
recursion structural. -/
def natDigitsF : Nat → Nat → PyStr
  | 0, _ => []
  | fuel + 1, n => if n < 10 then [48 + n] else natDigitsF fuel (n / 10) ++ [48 + n % 10]

def natDigits (n : Nat) : PyStr := natDigitsF (n + 1) n

/-- `generate_state` from `test_oauth_url.py`, with the random
`secrets.token_urlsafe(16)` passed in as an oracle:
`f"{token}_{timestamp}"`. -/
def generate_state (token : PyStr) (timestamp : Nat) : PyStr :=
  token ++ 95 :: natDigits timestamp

/-- The query-parameter dict of `build_authorization_url`, in insertion
order. -/
def authParams (client_id redirect_uri state code_challenge : PyStr) :
    List (PyStr × PyStr) :=
  [(pystr "response_type", pystr "code"),
   (pystr "client_id", client_id),
   (pystr "redirect_uri", redirect_uri),
   (pystr "scope", pystr "restlets rest_webservices"),
   (pystr "state", state),
   (pystr "code_challenge", code_challenge),
   (pystr "code_challenge_method", pystr "S256")]

/-- `build_authorization_url` from `test_oauth_url.py`, with the randomly
generated code verifier and state passed in as parameters; returns
`(auth_url, code_verifier, state)`. -/
def build_authorization_url (account_id client_id redirect_uri code_verifier state : PyStr) :
    PyStr × PyStr × PyStr :=
  let code_challenge := generate_code_challenge code_verifier
  let base_url :=
    pystr "https://" ++ account_id ++ pystr ".app.netsuite.com/app/login/oauth2/authorize.nl"
  (base_url ++ 63 :: urlencodePy (authParams client_id redirect_uri state code_challenge),
    code_verifier, state)

/-- The `full_url` built by `test_oauth_url` in `test_oauth.py` from its
hard-coded placeholder configuration. -/
def test_oauth_full_url : PyStr :=
  pystr "https://" ++ pystr "1234567" ++ pystr ".app.netsuite.com/app/login/oauth2/authorize.nl" ++
    63 :: urlencodePy
      [(pystr "response_type", pystr "code"),
       (pystr "client_id", pystr "your_client_id_here"),
       (pystr "redirect_uri", pystr "fieldpay://callback"),
       (pystr "scope", pystr "restlets rest_webservices"),
       (pystr "state", pystr "test_state_123"),
       (pystr "code_challenge", pystr "test_challenge"),
       (pystr "code_challenge_method", pystr "S256")]

/-- Python `str.lower` restricted to the ASCII case mapping.  The keyword
lists of both monitor scripts are pure ASCII; non-ASCII characters of a log
line are left unchanged by this restriction. -/
def lowerPy (l : PyStr) : PyStr := l.map lowerAscii

/-- The whitespace characters removed by Python `str.strip()` (ASCII part). -/
def PySpace (c : Nat) : Prop := c = 32 ∨ c = 9 ∨ c = 10 ∨ c = 13 ∨ c = 11 ∨ c = 12

instance (c : Nat) : Decidable (PySpace c) := by unfold PySpace; infer_instance

/-- Python `str.strip()`. -/
def stripPy (l : PyStr) : PyStr :=
  ((l.dropWhile fun c => decide (PySpace c)).reverse.dropWhile fun c =>
    decide (PySpace c)).reverse

/-- The keyword list of `run_log_monitor` in `debug_oauth.py`. -/
def oauth_keywords : List PyStr :=
  [pystr "OAuth", pystr "NetSuite", pystr "token", pystr "authorization", pystr "callback",
   pystr "URL", pystr "Safari", pystr "redirect", pystr "code", pystr "access_token",
   pystr "refresh_token", pystr "error", pystr "ERROR", pystr "Debug", pystr "FRESH",
   pystr "UIOpenURLAction", pystr "SceneClient", pystr "FrontBoard"]

/-- The keyword list of `run_userdefaults_monitor` in
`debug_userdefaults.py`. -/
def userdefaults_keywords : List PyStr :=
  [pystr "UserDefaults", pystr "netsuite_access_token", pystr "netsuite_refresh_token",
   pystr "netsuite_token_expiry", pystr "netsuite_client_id", pystr "netsuite_client_secret",
   pystr "netsuite_account_id", pystr "netsuite_redirect_uri", pystr "netsuite_code_verifier",
   pystr "netsuite_oauth_state", pystr "storeTokens", pystr "loadStoredTokens",
   pystr "clearStoredTokens", pystr "updateConfiguration", pystr "configure",
   pystr "Debug.*save", pystr "Debug.*load", pystr "Debug.*store", pystr "Debug.*clear",
   pystr "Debug.*UserDefaults", pystr "Debug.*token", pystr "Debug.*configured",
   pystr "Debug.*OAuthManager", pystr "Debug.*NetSuiteAPI", pystr "Debug.*isConfigured"]

/-- The echo condition of both monitor loops: some keyword occurs in the
line as a case-insensitive substring
(`any(keyword.lower() in line.lower() for keyword in keywords)`). -/
def lineMatches (keywords : List PyStr) (line : PyStr) : Bool :=
  keywords.any fun k => containsSub (lowerPy k) (lowerPy line)

/-- The echoed form of a matched line: `f"[{timestamp}] {line.strip()}"`. -/
def echoLine (ts line : PyStr) : PyStr := 91 :: ts ++ 93 :: 32 :: stripPy line

/-- The monitor loop shared by `run_log_monitor` and
`run_userdefaults_monitor`: read lines until `readline` yields the empty
string, echo the matching ones with a timestamp prefix.  `ts i` is the
timestamp sampled for the `i`-th echoed line.  The extra "special
highlighting" prints of the sources (emitted inside the same matching
branch) are not part of the modelled trace. -/
def runMonitor (keywords : List PyStr) (ts : Nat → PyStr) (i : Nat) : List PyStr → List PyStr
  | [] => []
  | line :: rest =>
    if line = [] then []
    else if lineMatches keywords line then
      echoLine (ts i) line :: runMonitor keywords ts (i + 1) rest
    else runMonitor keywords ts i rest

/-- `run_log_monitor` of `debug_oauth.py`, on the stream of lines returned
by successive `readline` calls. -/
def run_log_monitor (ts : Nat → PyStr) (lines : List PyStr) : List PyStr :=
  runMonitor oauth_keywords ts 0 lines

/-- `run_userdefaults_monitor` of `debug_userdefaults.py`. -/
def run_userdefaults_monitor (ts : Nat → PyStr) (lines : List PyStr) : List PyStr :=
  runMonitor userdefaults_keywords ts 0 lines

/-- Indexed map with a running counter, used to state the monitor
equations. -/
def mapWithIdx (f : Nat → α → β) : Nat → List α → List β
  | _, [] => []
  | i, a :: l => f i a :: mapWithIdx f (i + 1) l

/-- A minimal model of the values `response.json()` can return. -/
inductive PyVal where
  | vdict : List (PyStr × PyVal) → PyVal
  | vlist : List PyVal → PyVal
  | vstr : PyStr → PyVal
  | vnum : Int → PyVal
  | vbool : Bool → PyVal
  | vnull : PyVal

/-- Python `k in data` for the containers relevant here (`dict` keys,
`list` membership of a string, `str` substring). -/
def inKeys (data : PyVal) (k : PyStr) : Bool :=
  match data with
  | PyVal.vdict entries => entries.any fun p => decide (p.1 = k)
  | PyVal.vlist elems =>
    elems.any fun e =>
      match e with
      | PyVal.vstr s => decide (s = k)
      | _ => false
  | PyVal.vstr s => containsSub k s
  | _ => false

/-- Python `data[k]` on a dict (null when absent; the source only indexes
keys it has just tested). -/
def dictGetVal (data : PyVal) (k : PyStr) : PyVal :=
  match data with
  | PyVal.vdict entries =>
    (((entries.find? fun p => decide (p.1 = k)).map fun p => p.2).getD PyVal.vnull)
  | _ => PyVal.vnull

/-- Python `len` on the container values relevant here. -/
def pyLen : PyVal → Nat
  | PyVal.vdict e => e.length
  | PyVal.vlist l => l.length
  | PyVal.vstr s => s.length
  | _ => 0

/-- Outcome of the single `requests.get` call of `quick_test`: a response
with status, parsed JSON body (`none` when `response.json()` raises
`JSONDecodeError`) and raw text, or one of the two request exceptions the
source catches. -/
inductive ReqOutcome where
  | ok : Nat → Option PyVal → PyStr → ReqOutcome
  | timeout : ReqOutcome
  | netError : PyStr → ReqOutcome

/-- Observable actions of `quick_test`, at the granularity the
error-handling claims are stated at: the spawned HTTP GET and the
diagnostic branch taken.  Prints of fixed banner text are not traced. -/
inductive QAct where
  | httpGet : PyStr → QAct
  | gotStatus : Nat → QAct
  | countedRecords : PyStr → Nat → QAct
  | noRecords : QAct
  | diagAuthFailed : QAct
  | diagPermissionDenied : QAct
  | diagOtherStatus : Nat → PyStr → QAct
  | diagTimeout : QAct
  | diagNetworkError : PyStr → QAct
  | diagBadJson : PyStr → QAct
  | missingAccount : QAct
  | missingToken : QAct

/-- `quick_test` from `quick_test.py`, with the two `input()` values and
the outcome of the one `requests.get` passed in as oracles.  Early returns
on missing credentials perform no request; the response is handled by
status-code branching: 200 parses JSON and counts records under
`records`/`items`, 401 and 403 print their fixed diagnoses, any other
status prints a generic error with `response.text[:200]`. -/
def quickTestUrl (account_id : PyStr) : PyStr :=
  pystr "https://" ++ account_id ++
    pystr ".restlets.api.netsuite.com/rest/platform/v1/record/customer"

/-- The record counting of the 200 branch: count under `records`, else
under `items`, else report that no customer records were found. -/
def recordReport (data : PyVal) : QAct :=
  if inKeys data (pystr "records") then
    QAct.countedRecords (pystr "records") (pyLen (dictGetVal data (pystr "records")))
  else if inKeys data (pystr "items") then
    QAct.countedRecords (pystr "items") (pyLen (dictGetVal data (pystr "items")))
  else QAct.noRecords

def quick_test (account_id access_token : PyStr) (resp : ReqOutcome) : List QAct :=
  if account_id = [] then [QAct.missingAccount]
  else if access_token = [] then [QAct.missingToken]
  else
    QAct.httpGet (quickTestUrl account_id) ::
      match resp with
      | ReqOutcome.timeout => [QAct.diagTimeout]
      | ReqOutcome.netError m => [QAct.diagNetworkError m]
      | ReqOutcome.ok status json text =>
        QAct.gotStatus status ::
          if status = 200 then
            match json with
            | none => [QAct.diagBadJson (text.take 200)]
            | some data => [recordReport data]
          else if status = 401 then [QAct.diagAuthFailed]
          else if status = 403 then [QAct.diagPermissionDenied]
          else [QAct.diagOtherStatus status (text.take 200)]

/-- Whether an action is the HTTP GET. -/
def isHttpGet : QAct → Bool
  | QAct.httpGet _ => true
  | _ => false

/-- The four credentials written by `set_netsuite_credentials.py`, in
iteration order of its `credentials` dict. -/
def netsuite_credentials : List (PyStr × PyStr) :=
  [(pystr "netsuite_client_id",
    pystr "2ada1369bdb25a146faf520ddfd9c88517b2e2a7d09383e2dc0c30e183ebb352"),
   (pystr "netsuite_client_secret",
    pystr "51cdefe493f171a859fa6be75add7daab5d7b8b6da16f2f2bfbf1249d51fa71b"),
   (pystr "netsuite_account_id", pystr "tstdrv1870144"),
   (pystr "netsuite_redirect_uri", pystr "fieldpay://callback")]

/-- The write loop of `set_netsuite_credentials`: `defaults write` per key
in order, returning `False` at the first failure; after all writes, the
`defaults read` verification decides the result.  `writeOk k` and `readOk`
are the oracles for the subprocess outcomes; the second component collects
the keys for which a write was attempted, in order. -/
def writeLoop (writeOk : PyStr → Bool) (readOk : Bool) :
    List (PyStr × PyStr) → Bool × List PyStr
  | [] => (readOk, [])
  | (k, _) :: rest =>
    if writeOk k then
      let r := writeLoop writeOk readOk rest
      (r.1, k :: r.2)
    else (false, [k])

/-- `set_netsuite_credentials` from `set_netsuite_credentials.py`. -/
def set_netsuite_credentials (writeOk : PyStr → Bool) (readOk : Bool) : Bool × List PyStr :=
  writeLoop writeOk readOk netsuite_credentials

/-- An exception escaping `test_netsuite_api`, as `main` of
`debug_netsuite_api.py` distinguishes them. -/
inductive PyExc where
  | keyboardInterrupt : PyExc
  | otherExc : PyStr → PyExc

/-- `main` of `debug_netsuite_api.py`, with the outcome of
`test_netsuite_api()` (normal return or the exception it raises) passed as
a parameter; the result is the list of lines `main` itself prints.  Being a
total function into plain print traces models that `main` catches both
handler branches and never re-raises. -/
def debug_api_main (outcome : Except PyExc Unit) : List PyStr :=
  pystr "🚀 Starting NetSuite API Debug..." ::
    (match outcome with
     | Except.ok _ => []
     | Except.error PyExc.keyboardInterrupt => [pystr "\n⏹️  Debug interrupted by user"]
     | Except.error (PyExc.otherExc m) => [pystr "❌ Unexpected error: " ++ m]) ++
    [pystr "\n🏁 Debug complete!"]

set_option maxRecDepth 10000

/-- The PKCE unreserved alphabet named by the spec: ASCII letters, digits,
and `-`, `.`, `_`, `~`. -/
def PkceChar (c : Nat) : Prop :=
  (48 ≤ c ∧ c ≤ 57) ∨ (65 ≤ c ∧ c ≤ 90) ∨ (97 ≤ c ∧ c ≤ 122) ∨
    c = 45 ∨ c = 46 ∨ c = 95 ∨ c = 126

instance (c : Nat) : Decidable (PkceChar c) := by unfold PkceChar; infer_instance

theorem allowed_chars_pkce : ∀ c ∈ allowed_chars, PkceChar c := by decide

/-- C3: modelling the two random draws as oracles in their ranges
(`lenRand = secrets.randbelow(86) < 86`, `pick i < 66` the index drawn by
`secrets.choice` from the 66-character alphabet), every string returned by
`generate_code_verifier` has length between 43 and 128 and all its
characters lie in the PKCE unreserved alphabet (ASCII letters, digits,
`-.​_~`), each drawn from the script's `allowed_chars`. -/
theorem generate_code_verifier_valid (lenRand : Nat) (pick : Nat → Nat)
    (hlen : lenRand < 86) (hpick : ∀ i, pick i < 66) :
    43 ≤ (generate_code_verifier lenRand pick).length ∧
      (generate_code_verifier lenRand pick).length ≤ 128 ∧
      ∀ c ∈ generate_code_verifier lenRand pick, c ∈ allowed_chars ∧ PkceChar c := by
  have hl : (generate_code_verifier lenRand pick).length = lenRand + 43 := by
    simp [generate_code_verifier]
  refine ⟨by omega, by omega, ?_⟩
  intro c hc
  simp only [generate_code_verifier, List.mem_map, List.mem_range] at hc
  obtain ⟨i, _, rfl⟩ := hc
  have h66 : pick i < allowed_chars.length := by
    have he : allowed_chars.length = 66 := by decide
    rw [he]; exact hpick i
  have hmem : allowed_chars.getD (pick i) 97 ∈ allowed_chars := by
    rw [List.getD_eq_getElem _ _ h66]
    exact List.getElem_mem h66
  exact ⟨hmem, allowed_chars_pkce _ hmem⟩

/-- Closed witness for C3 at a concrete pair of oracles. -/
theorem generate_code_verifier_valid_witness :
    (0 < 86 ∧ ∀ i : Nat, (fun _ : Nat => 5) i < 66) ∧
      (43 ≤ (generate_code_verifier 0 fun _ => 5).length ∧
        (generate_code_verifier 0 fun _ => 5).length ≤ 128 ∧
        ∀ c ∈ generate_code_verifier 0 fun _ => 5, c ∈ allowed_chars ∧ PkceChar c) :=
  ⟨⟨by omega, fun _ => by simp⟩,
    generate_code_verifier_valid 0 (fun _ => 5) (by omega) (fun _ => by simp)⟩

theorem runMonitor_eq (kw : List PyStr) (ts : Nat → PyStr) :
    ∀ (i : Nat) (lines : List PyStr),
      runMonitor kw ts i lines =
        mapWithIdx (fun j l => echoLine (ts j) l) i
          ((lines.takeWhile fun l => decide (l ≠ [])).filter (lineMatches kw)) := by
  intro i lines
  induction lines generalizing i with
  | nil => rfl
  | cons line rest ih =>
    by_cases hl : line = []
    · subst hl
      simp [runMonitor, List.takeWhile_cons, mapWithIdx]
    · by_cases hm : lineMatches kw line
      · simp [runMonitor, hl, hm, List.takeWhile_cons, List.filter_cons, mapWithIdx, ih]
      · simp [runMonitor, hl, hm, List.takeWhile_cons, List.filter_cons, mapWithIdx, ih]

/-- C5: in both log-monitor scripts, the loop stops at the first empty
`readline` result and echoes (with a timestamp prefix) exactly those lines
in which some keyword of the script's list occurs as a case-insensitive
substring — the trace equals the keyword filter of the lines before the
first empty one, echo-formatted in order. -/
theorem monitors_filter_by_keywords (ts1 ts2 : Nat → PyStr) (lines1 lines2 : List PyStr) :
    run_log_monitor ts1 lines1 =
      mapWithIdx (fun j l => echoLine (ts1 j) l) 0
        ((lines1.takeWhile fun l => decide (l ≠ [])).filter (lineMatches oauth_keywords)) ∧
    run_userdefaults_monitor ts2 lines2 =
      mapWithIdx (fun j l => echoLine (ts2 j) l) 0
        ((lines2.takeWhile fun l => decide (l ≠ [])).filter (lineMatches userdefaults_keywords)) :=
  ⟨runMonitor_eq oauth_keywords ts1 0 lines1, runMonitor_eq userdefaults_keywords ts2 0 lines2⟩

/-- The four keys of `set_netsuite_credentials`, in write order. -/
def credKeys : List PyStr := netsuite_credentials.map fun p => p.1

/-- C7: `set_netsuite_credentials` attempts the four `defaults write`
calls in dict order and stops at the first failure, returning `False` with
only the keys up to the failing one attempted; it returns `True` exactly
when all four writes and the verification read succeed (so a failing read
also yields `False`). -/
theorem set_netsuite_credentials_spec (w : PyStr → Bool) (r : Bool) :
    ((set_netsuite_credentials w r).1 = true ↔ ((∀ k ∈ credKeys, w k = true) ∧ r = true)) ∧
    ((∀ k ∈ credKeys, w k = true) → (set_netsuite_credentials w r).2 = credKeys) ∧
    (w (pystr "netsuite_client_id") = false →
      set_netsuite_credentials w r = (false, credKeys.take 1)) ∧
    (w (pystr "netsuite_client_id") = true → w (pystr "netsuite_client_secret") = false →
      set_netsuite_credentials w r = (false, credKeys.take 2)) ∧
    (w (pystr "netsuite_client_id") = true → w (pystr "netsuite_client_secret") = true →
      w (pystr "netsuite_account_id") = false →
      set_netsuite_credentials w r = (false, credKeys.take 3)) ∧
    (w (pystr "netsuite_client_id") = true → w (pystr "netsuite_client_secret") = true →
      w (pystr "netsuite_account_id") = true → w (pystr "netsuite_redirect_uri") = false →
      set_netsuite_credentials w r = (false, credKeys.take 4)) := by
  refine ⟨?_, ?_, ?_, ?_, ?_, ?_⟩
  · by_cases h1 : w (pystr "netsuite_client_id") = true <;>
      by_cases h2 : w (pystr "netsuite_client_secret") = true <;>
        by_cases h3 : w (pystr "netsuite_account_id") = true <;>
          by_cases h4 : w (pystr "netsuite_redirect_uri") = true <;>
            simp [set_netsuite_credentials, netsuite_credentials, writeLoop, credKeys,
              h1, h2, h3, h4]
  · intro hall
    simp only [credKeys, netsuite_credentials, List.map_cons, List.map_nil,
      List.mem_cons, List.not_mem_nil] at hall
    have h1 := hall _ (Or.inl rfl)
    have h2 := hall _ (Or.inr (Or.inl rfl))
    have h3 := hall _ (Or.inr (Or.inr (Or.inl rfl)))
    have h4 := hall _ (Or.inr (Or.inr (Or.inr (Or.inl rfl))))
    simp [set_netsuite_credentials, netsuite_credentials, writeLoop, credKeys, h1, h2, h3, h4]
  · intro h1
    simp [set_netsuite_credentials, netsuite_credentials, writeLoop, credKeys, h1]
  · intro h1 h2
    simp [set_netsuite_credentials, netsuite_credentials, writeLoop, credKeys, h1, h2]
  · intro h1 h2 h3
    simp [set_netsuite_credentials, netsuite_credentials, writeLoop, credKeys, h1, h2, h3]
  · intro h1 h2 h3 h4
    simp [set_netsuite_credentials, netsuite_credentials, writeLoop, credKeys, h1, h2, h3, h4]

/-- Closed witness for C7: with a write oracle failing on the second key,
the function stops after two attempts and returns `False`. -/
theorem set_netsuite_credentials_spec_witness :
    ((fun k => decide (k = pystr "netsuite_client_id")) (pystr "netsuite_client_id") = true ∧
      (fun k => decide (k = pystr "netsuite_client_id")) (pystr "netsuite_client_secret")
        = false) ∧
      set_netsuite_credentials (fun k => decide (k = pystr "netsuite_client_id")) true =
        (false, credKeys.take 2) := by
  refine ⟨⟨by decide, by decide⟩, ?_⟩
  exact (set_netsuite_credentials_spec (fun k => decide (k = pystr "netsuite_client_id"))
    true).2.2.2.1 (by decide) (by decide)

/-- C8: `main` of `debug_netsuite_api.py` catches every exception other
than `KeyboardInterrupt` raised out of `test_netsuite_api`, prints it,
prints the completion line, and returns normally — as a total function its
trace for an arbitrary exception is exactly the start banner, the error
print, and the completion line, and every outcome's trace ends with the
completion line. -/
theorem debug_api_main_catches_all (m : PyStr) (outcome : Except PyExc Unit) :
    debug_api_main (Except.error (PyExc.otherExc m)) =
      [pystr "🚀 Starting NetSuite API Debug...", pystr "❌ Unexpected error: " ++ m,
        pystr "\n🏁 Debug complete!"] ∧
    (debug_api_main outcome).getLast? = some (pystr "\n🏁 Debug complete!") := by
  constructor
  · simp [debug_api_main]
  · cases outcome with
    | ok u => simp [debug_api_main]
    | error e => cases e <;> simp [debug_api_main]

theorem isHttpGet_recordReport (d : PyVal) : isHttpGet (recordReport d) = false := by
  unfold recordReport
  split
  · rfl
  · split <;> rfl

/-- C6: `quick_test` performs at most one HTTP GET per invocation (for
every oracle outcome, including the early returns and the exception
branches), and reacts to a response by status-code branching only, with no
retry in any branch: 200 parses JSON and counts records (or reports bad
JSON), 401 prints the authentication-failed diagnosis, 403 the
permission-denied diagnosis, and any other status the generic error with a
200-character prefix of the body. -/
theorem quick_test_single_get (a t x : PyStr) (s : Nat) (j : Option PyVal)
    (ha : a ≠ []) (ht : t ≠ []) :
    (∀ (a2 t2 : PyStr) (r2 : ReqOutcome),
      ((quick_test a2 t2 r2).filter isHttpGet).length ≤ 1) ∧
    (∀ d, quick_test a t (ReqOutcome.ok 200 (some d) x) =
      [QAct.httpGet (quickTestUrl a), QAct.gotStatus 200, recordReport d]) ∧
    quick_test a t (ReqOutcome.ok 200 none x) =
      [QAct.httpGet (quickTestUrl a), QAct.gotStatus 200, QAct.diagBadJson (x.take 200)] ∧
    quick_test a t (ReqOutcome.ok 401 j x) =
      [QAct.httpGet (quickTestUrl a), QAct.gotStatus 401, QAct.diagAuthFailed] ∧
    quick_test a t (ReqOutcome.ok 403 j x) =
      [QAct.httpGet (quickTestUrl a), QAct.gotStatus 403, QAct.diagPermissionDenied] ∧
    (s ≠ 200 → s ≠ 401 → s ≠ 403 → quick_test a t (ReqOutcome.ok s j x) =
      [QAct.httpGet (quickTestUrl a), QAct.gotStatus s,
        QAct.diagOtherStatus s (x.take 200)]) := by
  refine ⟨?_, ?_, ?_, ?_, ?_, ?_⟩
  · intro a2 t2 r2
    by_cases h1 : a2 = []
    · simp [quick_test, h1, isHttpGet]
    · by_cases h2 : t2 = []
      · simp [quick_test, h1, h2, isHttpGet]
      · cases r2 with
        | timeout => simp [quick_test, h1, h2, isHttpGet]
        | netError m => simp [quick_test, h1, h2, isHttpGet]
        | ok s2 j2 x2 =>
          by_cases hs1 : s2 = 200
          · cases j2 with
            | none => simp [quick_test, h1, h2, isHttpGet, hs1]
            | some d =>
              simp [quick_test, h1, h2, isHttpGet, hs1]
              exact isHttpGet_recordReport d
          · by_cases hs2 : s2 = 401
            · simp [quick_test, h1, h2, isHttpGet, hs1, hs2]
            · by_cases hs3 : s2 = 403 <;>
                simp [quick_test, h1, h2, isHttpGet, hs1, hs2, hs3]
  · intro d
    simp [quick_test, ha, ht]
  · simp [quick_test, ha, ht]
  · simp [quick_test, ha, ht]
  · simp [quick_test, ha, ht]
  · intro hs1 hs2 hs3
    simp [quick_test, ha, ht, hs1, hs2, hs3]

/-- Closed witness for C6 at concrete inputs: a 500 response takes the
generic-error branch with the 200-character body prefix. -/
theorem quick_test_single_get_witness :
    (pystr "1" ≠ ([] : PyStr) ∧ pystr "x" ≠ ([] : PyStr) ∧
      (500 : Nat) ≠ 200 ∧ (500 : Nat) ≠ 401 ∧ (500 : Nat) ≠ 403) ∧
    quick_test (pystr "1") (pystr "x") (ReqOutcome.ok 500 none (pystr "body")) =
      [QAct.httpGet (quickTestUrl (pystr "1")), QAct.gotStatus 500,
        QAct.diagOtherStatus 500 ((pystr "body").take 200)] :=
  ⟨⟨by decide, by decide, by decide, by decide, by decide⟩,
    (quick_test_single_get (pystr "1") (pystr "x") (pystr "body") 500 none
      (by decide) (by decide)).2.2.2.2.2 (by decide) (by decide) (by decide)⟩

/-- The URL-safe base64 alphabet as a predicate: ASCII letters, digits,
`-` and `_`. -/
def B64UrlChar (c : Nat) : Prop :=
  (65 ≤ c ∧ c ≤ 90) ∨ (97 ≤ c ∧ c ≤ 122) ∨ (48 ≤ c ∧ c ≤ 57) ∨ c = 45 ∨ c = 95

instance (c : Nat) : Decidable (B64UrlChar c) := by unfold B64UrlChar; infer_instance

theorem b64Table_chars : ∀ c ∈ b64Table, B64UrlChar c := by decide

theorem b64Char_mem (n : Nat) : b64Char n ∈ b64Table := by
  unfold b64Char
  rcases Nat.lt_or_ge n b64Table.length with h | h
  · rw [List.getD_eq_getElem _ _ h]
    exact List.getElem_mem h
  · rw [List.getD_eq_default _ _ h]
    decide

theorem sha256Digest_length (st : Sha8) : (sha256Digest st).length = 32 := by
  simp [sha256Digest, wordBytes]

theorem sha256_length (msg : List Nat) : (sha256 msg).length = 32 :=
  sha256Digest_length _

theorem b64urlEncode_shape : ∀ (n : Nat) (l : List Nat), l.length ≤ n → l.length % 3 = 2 →
    ∃ body, b64urlEncode l = body ++ [61] ∧ body.length = l.length / 3 * 4 + 3 ∧
      ∀ c ∈ body, c ∈ b64Table := by
  intro n
  induction n with
  | zero =>
    intro l hl hm
    have : l.length = 0 := Nat.le_zero.mp hl
    omega
  | succ n ih =>
    intro l hl hm
    cases l with
    | nil => simp at hm
    | cons b1 t1 =>
      cases t1 with
      | nil => simp at hm
      | cons b2 t2 =>
        cases t2 with
        | nil =>
          refine ⟨[b64Char (b1 / 4), b64Char (b1 % 4 * 16 + b2 / 16), b64Char (b2 % 16 * 4)],
            by simp [b64urlEncode], by simp, ?_⟩
          intro c hc
          simp at hc
          rcases hc with rfl | rfl | rfl <;> exact b64Char_mem _
        | cons b3 rest =>
          have hm2 : rest.length % 3 = 2 := by simp at hm ⊢; omega
          have hl2 : rest.length ≤ n := by simp at hl; omega
          obtain ⟨body, he, hlen, hmem⟩ := ih rest hl2 hm2
          refine ⟨b64Char (b1 / 4) :: b64Char (b1 % 4 * 16 + b2 / 16) ::
            b64Char (b2 % 16 * 4 + b3 / 64) :: b64Char (b3 % 64) :: body, ?_, ?_, ?_⟩
          · rw [show b64urlEncode (b1 :: b2 :: b3 :: rest) =
              b64Char (b1 / 4) :: b64Char (b1 % 4 * 16 + b2 / 16) ::
                b64Char (b2 % 16 * 4 + b3 / 64) :: b64Char (b3 % 64) ::
                  b64urlEncode rest from rfl, he]
            simp
          · simp only [List.length_cons, hlen]
            omega
          · intro c hc
            simp only [List.mem_cons] at hc
            rcases hc with rfl | rfl | rfl | rfl | h
            · exact b64Char_mem _
            · exact b64Char_mem _
            · exact b64Char_mem _
            · exact b64Char_mem _
            · exact hmem c h

theorem rstripChar_body (c : Nat) (body : List Nat) (hne : body ≠ [])
    (hnc : ∀ x ∈ body, x ≠ c) : rstripChar c (body ++ [c]) = body := by
  unfold rstripChar
  rw [List.reverse_append]
  obtain ⟨hd, tl, he⟩ : ∃ hd tl, body.reverse = hd :: tl := by
    cases hb : body.reverse with
    | nil =>
      have hb2 : body = [] := by simpa using congrArg List.reverse hb
      exact absurd hb2 hne
    | cons a b => exact ⟨a, b, rfl⟩
  have hhd : hd ≠ c := hnc hd (by rw [← List.mem_reverse, he]; simp)
  rw [show ([c] : List Nat).reverse = [c] from rfl, he,
    show ([c] : List Nat) ++ hd :: tl = c :: hd :: tl from rfl]
  have e1 : List.dropWhile (fun x => decide (x = c)) (c :: hd :: tl) = hd :: tl := by
    simp [List.dropWhile_cons, hhd]
  rw [e1, ← he, List.reverse_reverse]

theorem challenge_shape_aux (v : PyStr) :
    (generate_code_challenge v).length = 43 ∧
      (∀ c ∈ generate_code_challenge v, B64UrlChar c) ∧
      61 ∉ generate_code_challenge v := by
  have hdl : (sha256 (utf8Encode v)).length = 32 := sha256_length _
  obtain ⟨body, he, hlen, hmem⟩ :=
    b64urlEncode_shape 32 (sha256 (utf8Encode v)) (by omega) (by omega)
  have hbody_ne : body ≠ [] := by
    intro h
    rw [h] at hlen
    simp at hlen
  have hb61 : ∀ x ∈ body, x ≠ 61 := fun x hx => by
    have hc := b64Table_chars x (hmem x hx)
    unfold B64UrlChar at hc
    omega
  have hrs : generate_code_challenge v = body := by
    unfold generate_code_challenge
    rw [he, rstripChar_body 61 body hbody_ne hb61]
  rw [hrs]
  refine ⟨?_, fun c hc => b64Table_chars c (hmem c hc), fun hc => (hb61 61 hc) rfl⟩
  rw [hlen, hdl]

/-- C9: for every input string, `generate_code_challenge` returns exactly
43 characters, all in the URL-safe base64 alphabet, and none equal to `=`:
the 32-byte SHA-256 digest encodes to 44 base64 characters ending in one
`=` which the `rstrip` removes. -/
theorem generate_code_challenge_shape (v : PyStr) :
    (generate_code_challenge v).length = 43 ∧
      (∀ c ∈ generate_code_challenge v, B64UrlChar c) ∧
      61 ∉ generate_code_challenge v :=
  challenge_shape_aux v

/-- C2: `generate_code_challenge` equals the `=`-stripped URL-safe base64
encoding of the SHA-256 digest of the UTF-8 encoded input, is
deterministic, and reproduces the RFC 7636 appendix-B test vector. -/
theorem generate_code_challenge_correct (v w : PyStr) :
    generate_code_challenge v = rstripChar 61 (b64urlEncode (sha256 (utf8Encode v))) ∧
    (v = w → generate_code_challenge v = generate_code_challenge w) ∧
    generate_code_challenge (pystr "dBjftJeZ4CVP-mB92K27uhbUJU1p1r_wW1gFWFOEjXk") =
      pystr "E9Melhoa2OwvFrEMTJguCHaoeK1t8URWbuGJSstw-cM" :=
  ⟨rfl, fun h => by rw [h], by decide⟩

/-- Closed witness for C2 at a concrete input. -/
theorem generate_code_challenge_correct_witness :
    pystr "abc" = pystr "abc" ∧
      generate_code_challenge (pystr "abc") = generate_code_challenge (pystr "abc") :=
  ⟨rfl, (generate_code_challenge_correct (pystr "abc") (pystr "abc")).2.1 rfl⟩

theorem b64UrlChar_safe (c : Nat) (h : B64UrlChar c) : AlwaysSafe c := by
  unfold B64UrlChar at h
  unfold AlwaysSafe
  omega

theorem quote_plus_eq_self (l : PyStr) (h : ∀ c ∈ l, AlwaysSafe c) : quote_plus l = l := by
  induction l with
  | nil => rfl
  | cons c t ih =>
    have hc := h c (by simp)
    have h32 : c ≠ 32 := by unfold AlwaysSafe at hc; omega
    show quotePlusChar c ++ quote_plus t = c :: t
    rw [show quotePlusChar c = [c] from by simp [quotePlusChar, h32, hc],
      ih (fun x hx => h x (by simp [hx]))]
    rfl

theorem quote_plus_challenge (ver : PyStr) :
    quote_plus (generate_code_challenge ver) = generate_code_challenge ver :=
  quote_plus_eq_self _ (fun x hx => b64UrlChar_safe x ((challenge_shape_aux ver).2.1 x hx))

/-- C4: the authorization URL is the account's NetSuite authorize endpoint
followed by `?` and the urlencoding of exactly the seven query parameters
in source order, each value plus/percent-encoded — spelled out as an
explicit string equation (the code challenge, being base64url, is left
unchanged by the encoding); and `test_oauth.py` builds its `full_url` by
the same construction from its hard-coded configuration. -/
theorem build_authorization_url_construction (a c r ver st : PyStr) :
    build_authorization_url a c r ver st =
      (pystr "https://" ++ a ++ pystr ".app.netsuite.com/app/login/oauth2/authorize.nl" ++
        pystr "?response_type=code&client_id=" ++ quote_plus c ++
        pystr "&redirect_uri=" ++ quote_plus r ++
        pystr "&scope=restlets+rest_webservices&state=" ++ quote_plus st ++
        pystr "&code_challenge=" ++ generate_code_challenge ver ++
        pystr "&code_challenge_method=S256", ver, st) ∧
    test_oauth_full_url =
      pystr "https://1234567.app.netsuite.com/app/login/oauth2/authorize.nl?response_type=code&client_id=your_client_id_here&redirect_uri=fieldpay%3A%2F%2Fcallback&scope=restlets+rest_webservices&state=test_state_123&code_challenge=test_challenge&code_challenge_method=S256" := by
  constructor
  · simp only [build_authorization_url, urlencodePy, List.map_cons, List.map_nil, joinSep]
    rw [show quote_plus (pystr "response_type") = pystr "response_type" from by decide,
      show quote_plus (pystr "code") = pystr "code" from by decide,
      show quote_plus (pystr "client_id") = pystr "client_id" from by decide,
      show quote_plus (pystr "redirect_uri") = pystr "redirect_uri" from by decide,
      show quote_plus (pystr "scope") = pystr "scope" from by decide,
      show quote_plus (pystr "restlets rest_webservices") =
        pystr "restlets+rest_webservices" from by decide,
      show quote_plus (pystr "state") = pystr "state" from by decide,
      show quote_plus (pystr "code_challenge") = pystr "code_challenge" from by decide,
      show quote_plus (pystr "code_challenge_method") =
        pystr "code_challenge_method" from by decide,
      show quote_plus (pystr "S256") = pystr "S256" from by decide,
      quote_plus_challenge ver]
    rw [show pystr "?response_type=code&client_id=" =
        63 :: pystr "response_type" ++ 61 :: pystr "code" ++ 38 :: pystr "client_id" ++ [61]
        from by decide,
      show pystr "&redirect_uri=" = 38 :: pystr "redirect_uri" ++ [61] from by decide,
      show pystr "&scope=restlets+rest_webservices&state=" =
        38 :: pystr "scope" ++ 61 :: pystr "restlets+rest_webservices" ++
          38 :: pystr "state" ++ [61] from by decide,
      show pystr "&code_challenge=" = 38 :: pystr "code_challenge" ++ [61] from by decide,
      show pystr "&code_challenge_method=S256" =
        38 :: pystr "code_challenge_method" ++ 61 :: pystr "S256" from by decide]
    simp [List.append_assoc]
  · decide

/-- C10: `validate_url` is total — for every input string it returns a
(bool, message) pair, parse errors being converted to a `False` result by
the except branch — and it returns `True` only when the parsed URL has
scheme `https`, a netloc containing `netsuite.com`, a path ending in the
authorize endpoint, all seven required query parameters present, and the
three fixed parameter values correct. -/
theorem validate_url_sound (url : PyStr) :
    (∃ b m, validate_url url = (b, m)) ∧
    ((validate_url url).1 = true →
      ∃ p, urlparseE url = Except.ok p ∧
        p.scheme = pystr "https" ∧
        containsSub (pystr "netsuite.com") p.netloc = true ∧
        endsWithPy (pystr "/app/login/oauth2/authorize.nl") p.path = true ∧
        (∀ k ∈ requiredParams, qsHas (parseQsl p.query) k = true) ∧
        qsFirst (parseQsl p.query) (pystr "response_type") = some (pystr "code") ∧
        qsFirst (parseQsl p.query) (pystr "code_challenge_method") = some (pystr "S256") ∧
        qsFirst (parseQsl p.query) (pystr "scope") =
          some (pystr "restlets rest_webservices")) := by
  refine ⟨⟨(validate_url url).1, (validate_url url).2, rfl⟩, ?_⟩
  intro htrue
  unfold validate_url at htrue
  cases hp : urlparseE url with
  | error e => rw [hp] at htrue; simp at htrue
  | ok p =>
    rw [hp] at htrue
    replace htrue : (validateChecks p).1 = true := htrue
    unfold validateChecks at htrue
    simp only [] at htrue
    refine ⟨p, rfl, ?_⟩
    by_cases h1 : p.scheme ≠ pystr "https"
    · rw [if_pos h1] at htrue; simp at htrue
    · rw [if_neg h1] at htrue
      by_cases h2 : ¬ containsSub (pystr "netsuite.com") p.netloc = true
      · rw [if_pos h2] at htrue; simp at htrue
      · rw [if_neg h2] at htrue
        by_cases h3 : ¬ endsWithPy (pystr "/app/login/oauth2/authorize.nl") p.path = true
        · rw [if_pos h3] at htrue; simp at htrue
        · rw [if_neg h3] at htrue
          cases hf : requiredParams.find? fun k => ! qsHas (parseQsl p.query) k with
          | some k => rw [hf] at htrue; simp at htrue
          | none =>
            rw [hf] at htrue
            have hall := List.find?_eq_none.mp hf
            by_cases h4 : qsFirst (parseQsl p.query) (pystr "response_type") ≠
                some (pystr "code")
            · rw [if_pos h4] at htrue; simp at htrue
            · rw [if_neg h4] at htrue
              by_cases h5 : qsFirst (parseQsl p.query) (pystr "code_challenge_method") ≠
                  some (pystr "S256")
              · rw [if_pos h5] at htrue; simp at htrue
              · rw [if_neg h5] at htrue
                by_cases h6 : qsFirst (parseQsl p.query) (pystr "scope") ≠
                    some (pystr "restlets rest_webservices")
                · rw [if_pos h6] at htrue; simp at htrue
                · refine ⟨not_ne_iff.mp h1, not_not.mp h2, not_not.mp h3, ?_,
                    not_ne_iff.mp h4, not_ne_iff.mp h5, not_ne_iff.mp h6⟩
                  intro k hk
                  have := hall k hk
                  simpa using this

/-- Closed witness for C10: the hard-coded `test_oauth.py` URL validates
`True`, so the soundness implication applies to it. -/
theorem validate_url_sound_witness :
    (validate_url test_oauth_full_url).1 = true ∧
      ∃ p, urlparseE test_oauth_full_url = Except.ok p ∧
        p.scheme = pystr "https" ∧
        containsSub (pystr "netsuite.com") p.netloc = true ∧
        endsWithPy (pystr "/app/login/oauth2/authorize.nl") p.path = true ∧
        (∀ k ∈ requiredParams, qsHas (parseQsl p.query) k = true) ∧
        qsFirst (parseQsl p.query) (pystr "response_type") = some (pystr "code") ∧
        qsFirst (parseQsl p.query) (pystr "code_challenge_method") = some (pystr "S256") ∧
        qsFirst (parseQsl p.query) (pystr "scope") =
          some (pystr "restlets rest_webservices") :=
  ⟨by decide, (validate_url_sound test_oauth_full_url).2 (by decide)⟩

theorem takeWhile_append_all (p : Nat → Bool) (l1 l2 : List Nat)
    (h : ∀ x ∈ l1, p x = true) :
    (l1 ++ l2).takeWhile p = l1 ++ l2.takeWhile p := by
  induction l1 with
  | nil => simp
  | cons a t ih =>
    have ha := h a (by simp)
    simp [List.takeWhile_cons, ha, ih (fun x hx => h x (by simp [hx]))]

theorem dropWhile_append_all (p : Nat → Bool) (l1 l2 : List Nat)
    (h : ∀ x ∈ l1, p x = true) :
    (l1 ++ l2).dropWhile p = l2.dropWhile p := by
  induction l1 with
  | nil => simp
  | cons a t ih =>
    have ha := h a (by simp)
    simp [List.dropWhile_cons, ha, ih (fun x hx => h x (by simp [hx]))]

theorem takeWhile_all (p : Nat → Bool) (l : List Nat) (h : ∀ x ∈ l, p x = true) :
    l.takeWhile p = l := by
  induction l with
  | nil => rfl
  | cons a t ih =>
    have ha := h a (by simp)
    simp [List.takeWhile_cons, ha, ih (fun x hx => h x (by simp [hx]))]

theorem dropWhile_all (p : Nat → Bool) (l : List Nat) (h : ∀ x ∈ l, p x = true) :
    l.dropWhile p = [] := by
  induction l with
  | nil => rfl
  | cons a t ih =>
    have ha := h a (by simp)
    simp [List.dropWhile_cons, ha, ih (fun x hx => h x (by simp [hx]))]

theorem splitOnChar_of_no_sep (sep : Nat) (f : List Nat) (h : ∀ x ∈ f, x ≠ sep) :
    splitOnChar sep f = [f] := by
  induction f with
  | nil => rfl
  | cons c t ih =>
    exact splitOnChar_cons_ne sep c t (h c (by simp)) t []
      (ih fun x hx => h x (by simp [hx]))

theorem splitOnChar_sep_cons (sep : Nat) (t : List Nat) :
    splitOnChar sep (sep :: t) = [] :: splitOnChar sep t := by
  simp [splitOnChar]

theorem splitOnChar_field (sep : Nat) (f t : List Nat) (h : ∀ x ∈ f, x ≠ sep) :
    splitOnChar sep (f ++ sep :: t) = f :: splitOnChar sep t := by
  induction f with
  | nil => simpa using splitOnChar_sep_cons sep t
  | cons c g ih =>
    have step := splitOnChar_cons_ne sep c (g ++ sep :: t) (h c (by simp)) g
      (splitOnChar sep t) (ih fun x hx => h x (by simp [hx]))
    simpa using step

theorem splitOnChar_joinSep (sep : Nat) :
    ∀ fs : List (List Nat), fs ≠ [] → (∀ f ∈ fs, ∀ x ∈ f, x ≠ sep) →
      splitOnChar sep (joinSep sep fs) = fs := by
  intro fs
  induction fs with
  | nil => intro h; exact absurd rfl h
  | cons f rest ih =>
    intro _ hall
    cases rest with
    | nil => exact splitOnChar_of_no_sep sep f (hall f (by simp))
    | cons g rest2 =>
      rw [show joinSep sep (f :: g :: rest2) = f ++ sep :: joinSep sep (g :: rest2) from rfl,
        splitOnChar_field sep f _ (hall f (by simp)),
        ih (by simp) (fun f2 hf2 x hx => hall f2 (by simp [hf2]) x hx)]

theorem quotePlusChar_ne_nil (c : Nat) : quotePlusChar c ≠ [] := by
  unfold quotePlusChar
  split
  · simp
  · split
    · simp
    · obtain ⟨b, bs, he⟩ : ∃ b bs, utf8EncodeChar c = b :: bs := by
        cases h : utf8EncodeChar c with
        | nil => exact absurd h (utf8EncodeChar_ne_nil c)
        | cons x y => exact ⟨x, y, rfl⟩
      rw [he]
      simp [pctByte]

theorem quote_plus_ne_nil (v : PyStr) (h : v ≠ []) : quote_plus v ≠ [] := by
  cases v with
  | nil => exact absurd rfl h
  | cons c t =>
    show quotePlusChar c ++ quote_plus t ≠ []
    simp [quotePlusChar_ne_nil]

theorem qslField_encodePair (k v : PyStr) (hk : ∀ x ∈ k, ScalarValue x)
    (hv : ∀ x ∈ v, ScalarValue x) (hvne : v ≠ []) :
    qslField (quote_plus k ++ 61 :: quote_plus v) = [(k, v)] := by
  have h61 : ∀ x ∈ quote_plus k, (fun c => decide (c ≠ 61)) x = true := fun x hx =>
    decide_eq_true ((quoteChar_bounds x (quote_plus_chars k hk x hx)).2.1)
  unfold qslField
  rw [if_neg (by simp)]
  simp only []
  rw [takeWhile_append_all _ _ _ h61,
    show List.takeWhile (fun c => decide (c ≠ 61)) (61 :: quote_plus v) = [] from by
      simp [List.takeWhile_cons],
    dropWhile_append_all _ _ _ h61,
    show List.dropWhile (fun c => decide (c ≠ 61)) (61 :: quote_plus v) = 61 :: quote_plus v
      from by simp [List.dropWhile_cons]]
  rw [if_neg (by simp)]
  rw [show (61 :: quote_plus v).tail = quote_plus v from rfl]
  rw [if_neg (quote_plus_ne_nil v hvne), List.append_nil]
  rw [show unquotePy (plusToSpace (quote_plus k)) = k from unquote_plus_quote_plus k hk,
    show unquotePy (plusToSpace (quote_plus v)) = v from unquote_plus_quote_plus v hv]

theorem catMap_qslField (params : List (PyStr × PyStr))
    (h : ∀ kv ∈ params, (∀ x ∈ kv.1, ScalarValue x) ∧ (∀ x ∈ kv.2, ScalarValue x) ∧
      kv.2 ≠ []) :
    catMap qslField (params.map fun kv => quote_plus kv.1 ++ 61 :: quote_plus kv.2) =
      params := by
  induction params with
  | nil => rfl
  | cons kv rest ih =>
    obtain ⟨hk, hv, hvne⟩ := h kv (by simp)
    simp only [List.map_cons, catMap_cons,
      qslField_encodePair kv.1 kv.2 hk hv hvne,
      ih (fun kv2 hkv2 => h kv2 (by simp [hkv2]))]
    simp

theorem urlencode_field_chars (k v : PyStr) (hk : ∀ x ∈ k, ScalarValue x)
    (hv : ∀ x ∈ v, ScalarValue x) :
    ∀ x ∈ quote_plus k ++ 61 :: quote_plus v, QuoteChar x ∨ x = 61 := by
  intro x hx
  rcases List.mem_append.mp hx with h | h
  · exact Or.inl (quote_plus_chars k hk x h)
  · rcases List.mem_cons.mp h with rfl | h2
    · exact Or.inr rfl
    · exact Or.inl (quote_plus_chars v hv x h2)

/-- Round trip of `urlencode` through `parse_qsl` for parameters with
nonempty values. -/
theorem parseQsl_urlencode (params : List (PyStr × PyStr))
    (h : ∀ kv ∈ params, (∀ x ∈ kv.1, ScalarValue x) ∧ (∀ x ∈ kv.2, ScalarValue x) ∧
      kv.2 ≠ []) :
    parseQsl (urlencodePy params) = params := by
  cases hp : params with
  | nil => rfl
  | cons kv rest =>
    subst hp
    unfold parseQsl urlencodePy
    rw [splitOnChar_joinSep 38 _ (by simp) ?_]
    · exact catMap_qslField _ h
    · intro f hf x hx
      simp only [List.mem_map] at hf
      obtain ⟨kv2, hkv2, rfl⟩ := hf
      obtain ⟨hk, hv, _⟩ := h kv2 hkv2
      rcases urlencode_field_chars kv2.1 kv2.2 hk hv x hx with hq | h61
      · exact fun he => absurd he (by
          have := (quoteChar_bounds x hq).1
          exact this)
      · omega

/-- ASCII letter or digit. -/
def AsciiAlphaNum (c : Nat) : Prop :=
  (48 ≤ c ∧ c ≤ 57) ∨ (65 ≤ c ∧ c ≤ 90) ∨ (97 ≤ c ∧ c ≤ 122)

instance (c : Nat) : Decidable (AsciiAlphaNum c) := by unfold AsciiAlphaNum; infer_instance

theorem urlsplitE_build (A Q : PyStr) (hA : ∀ x ∈ A, AsciiAlphaNum x)
    (hQ : ∀ x ∈ Q, 32 < x ∧ x ≠ 35) :
    urlsplitE (pystr "https://" ++ A ++
        pystr ".app.netsuite.com/app/login/oauth2/authorize.nl" ++ 63 :: Q) =
      Except.ok ⟨pystr "https", A ++ pystr ".app.netsuite.com",
        pystr "/app/login/oauth2/authorize.nl", Q, []⟩ := by
  have hAd : ∀ x ∈ A, 32 < x ∧ x < 128 ∧ x ≠ 58 ∧ x ≠ 47 ∧ x ≠ 63 ∧ x ≠ 35 ∧
      x ≠ 91 ∧ x ≠ 93 ∧ ¬(x = 9 ∨ x = 10 ∨ x = 13) := by
    intro x hx
    have := hA x hx
    unfold AsciiAlphaNum at this
    omega
  have hurl : pystr "https://" ++ A ++
      pystr ".app.netsuite.com/app/login/oauth2/authorize.nl" ++ 63 :: Q =
      104 :: 116 :: 116 :: 112 :: 115 :: 58 :: 47 :: 47 ::
        (A ++ (pystr ".app.netsuite.com" ++
          (47 :: (pystr "app/login/oauth2/authorize.nl" ++ 63 :: Q)))) := by
    rw [show pystr "https://" = [104, 116, 116, 112, 115, 58, 47, 47] from by decide,
      show pystr ".app.netsuite.com/app/login/oauth2/authorize.nl" =
        pystr ".app.netsuite.com" ++ 47 :: pystr "app/login/oauth2/authorize.nl"
        from by decide]
    simp [List.append_assoc]
  rw [hurl]
  have hRf : ∀ x ∈ A ++ (pystr ".app.netsuite.com" ++
      (47 :: (pystr "app/login/oauth2/authorize.nl" ++ 63 :: Q))),
      (fun c => decide (¬(c = 9 ∨ c = 10 ∨ c = 13))) x = true := by
    intro x hx
    refine decide_eq_true ?_
    rcases List.mem_append.mp hx with h | h
    · exact (hAd x h).2.2.2.2.2.2.2.2
    · rcases List.mem_append.mp h with h2 | h2
      · exact (by decide : ∀ y ∈ pystr ".app.netsuite.com",
          ¬(y = 9 ∨ y = 10 ∨ y = 13)) x h2
      · rcases List.mem_cons.mp h2 with rfl | h3
        · omega
        · rcases List.mem_append.mp h3 with h4 | h4
          · exact (by decide : ∀ y ∈ pystr "app/login/oauth2/authorize.nl",
              ¬(y = 9 ∨ y = 10 ∨ y = 13)) x h4
          · rcases List.mem_cons.mp h4 with rfl | h5
            · omega
            · have := hQ x h5
              omega
  unfold urlsplitE
  simp only []
  rw [show List.dropWhile (fun c => decide (c ≤ 32))
      (104 :: 116 :: 116 :: 112 :: 115 :: 58 :: 47 :: 47 ::
        (A ++ (pystr ".app.netsuite.com" ++
          (47 :: (pystr "app/login/oauth2/authorize.nl" ++ 63 :: Q))))) =
      104 :: 116 :: 116 :: 112 :: 115 :: 58 :: 47 :: 47 ::
        (A ++ (pystr ".app.netsuite.com" ++
          (47 :: (pystr "app/login/oauth2/authorize.nl" ++ 63 :: Q)))) from rfl]
  rw [show List.filter (fun c => decide (¬(c = 9 ∨ c = 10 ∨ c = 13)))
      (104 :: 116 :: 116 :: 112 :: 115 :: 58 :: 47 :: 47 ::
        (A ++ (pystr ".app.netsuite.com" ++
          (47 :: (pystr "app/login/oauth2/authorize.nl" ++ 63 :: Q))))) =
      104 :: 116 :: 116 :: 112 :: 115 :: 58 :: 47 :: 47 ::
        List.filter (fun c => decide (¬(c = 9 ∨ c = 10 ∨ c = 13)))
          (A ++ (pystr ".app.netsuite.com" ++
            (47 :: (pystr "app/login/oauth2/authorize.nl" ++ 63 :: Q)))) from rfl]
  rw [List.filter_eq_self.mpr hRf]
  rw [show List.takeWhile (fun c => decide (c ≠ 58))
      (104 :: 116 :: 116 :: 112 :: 115 :: 58 :: 47 :: 47 ::
        (A ++ (pystr ".app.netsuite.com" ++
          (47 :: (pystr "app/login/oauth2/authorize.nl" ++ 63 :: Q))))) =
      [104, 116, 116, 112, 115] from rfl]
  rw [if_pos (⟨by simp, by decide⟩ :
    ([104, 116, 116, 112, 115] : List Nat).length <
      (104 :: 116 :: 116 :: 112 :: 115 :: 58 :: 47 :: 47 ::
        (A ++ (pystr ".app.netsuite.com" ++
          (47 :: (pystr "app/login/oauth2/authorize.nl" ++ 63 :: Q))))).length ∧
      SchemeOkP [104, 116, 116, 112, 115])]
  simp only []
  rw [show (104 :: 116 :: 116 :: 112 :: 115 :: 58 :: 47 :: 47 ::
      (A ++ (pystr ".app.netsuite.com" ++
        (47 :: (pystr "app/login/oauth2/authorize.nl" ++ 63 :: Q))))).drop
      (([104, 116, 116, 112, 115] : List Nat).length + 1) =
      47 :: 47 :: (A ++ (pystr ".app.netsuite.com" ++
        (47 :: (pystr "app/login/oauth2/authorize.nl" ++ 63 :: Q)))) from rfl]
  rw [if_pos (show (47 :: 47 :: (A ++ (pystr ".app.netsuite.com" ++
      (47 :: (pystr "app/login/oauth2/authorize.nl" ++ 63 :: Q))))).take 2 =
      [47, 47] from rfl)]
  rw [show (47 :: 47 :: (A ++ (pystr ".app.netsuite.com" ++
      (47 :: (pystr "app/login/oauth2/authorize.nl" ++ 63 :: Q))))).drop 2 =
      A ++ (pystr ".app.netsuite.com" ++
        (47 :: (pystr "app/login/oauth2/authorize.nl" ++ 63 :: Q))) from rfl]
  rw [takeWhile_append_all (fun c => decide (¬(c = 47 ∨ c = 63 ∨ c = 35))) A _
    (fun x hx => decide_eq_true (by have := hAd x hx; omega))]
  rw [takeWhile_append_all (fun c => decide (¬(c = 47 ∨ c = 63 ∨ c = 35)))
    (pystr ".app.netsuite.com") _ (by decide)]
  rw [show List.takeWhile (fun c => decide (¬(c = 47 ∨ c = 63 ∨ c = 35)))
      (47 :: (pystr "app/login/oauth2/authorize.nl" ++ 63 :: Q)) = [] from rfl]
  rw [List.append_nil]
  rw [dropWhile_append_all (fun c => decide (¬(c = 47 ∨ c = 63 ∨ c = 35))) A _
    (fun x hx => decide_eq_true (by have := hAd x hx; omega))]
  rw [dropWhile_append_all (fun c => decide (¬(c = 47 ∨ c = 63 ∨ c = 35)))
    (pystr ".app.netsuite.com") _ (by decide)]
  rw [show List.dropWhile (fun c => decide (¬(c = 47 ∨ c = 63 ∨ c = 35)))
      (47 :: (pystr "app/login/oauth2/authorize.nl" ++ 63 :: Q)) =
      47 :: (pystr "app/login/oauth2/authorize.nl" ++ 63 :: Q) from rfl]
  have h91 : (91 : Nat) ∉ A ++ pystr ".app.netsuite.com" := by
    intro hm
    rcases List.mem_append.mp hm with h | h
    · have := hAd 91 h; omega
    · exact (by decide : (91 : Nat) ∉ pystr ".app.netsuite.com") h
  have h93 : (93 : Nat) ∉ A ++ pystr ".app.netsuite.com" := by
    intro hm
    rcases List.mem_append.mp hm with h | h
    · have := hAd 93 h; omega
    · exact (by decide : (93 : Nat) ∉ pystr ".app.netsuite.com") h
  rw [if_neg (by simp [h91, h93])]
  unfold splitFragQuery
  simp only []
  rw [show List.takeWhile (fun c => decide (c ≠ 35))
      (47 :: (pystr "app/login/oauth2/authorize.nl" ++ 63 :: Q)) =
      47 :: List.takeWhile (fun c => decide (c ≠ 35))
        (pystr "app/login/oauth2/authorize.nl" ++ 63 :: Q) from rfl]
  rw [takeWhile_append_all (fun c => decide (c ≠ 35))
    (pystr "app/login/oauth2/authorize.nl") _ (by decide)]
  rw [show List.takeWhile (fun c => decide (c ≠ 35)) (63 :: Q) =
      63 :: List.takeWhile (fun c => decide (c ≠ 35)) Q from rfl]
  rw [takeWhile_all (fun c => decide (c ≠ 35)) Q
    (fun x hx => decide_eq_true (by have := hQ x hx; omega))]
  rw [show List.dropWhile (fun c => decide (c ≠ 35))
      (47 :: (pystr "app/login/oauth2/authorize.nl" ++ 63 :: Q)) =
      List.dropWhile (fun c => decide (c ≠ 35))
        (pystr "app/login/oauth2/authorize.nl" ++ 63 :: Q) from rfl]
  rw [dropWhile_append_all (fun c => decide (c ≠ 35))
    (pystr "app/login/oauth2/authorize.nl") _ (by decide)]
  rw [show List.dropWhile (fun c => decide (c ≠ 35)) (63 :: Q) =
      List.dropWhile (fun c => decide (c ≠ 35)) Q from rfl]
  rw [dropWhile_all (fun c => decide (c ≠ 35)) Q
    (fun x hx => decide_eq_true (by have := hQ x hx; omega))]
  rw [show List.takeWhile (fun c => decide (c ≠ 63))
      (47 :: (pystr "app/login/oauth2/authorize.nl" ++ 63 :: Q)) =
      47 :: List.takeWhile (fun c => decide (c ≠ 63))
        (pystr "app/login/oauth2/authorize.nl" ++ 63 :: Q) from rfl]
  rw [takeWhile_append_all (fun c => decide (c ≠ 63))
    (pystr "app/login/oauth2/authorize.nl") _ (by decide)]
  rw [show List.takeWhile (fun c => decide (c ≠ 63)) (63 :: Q) = [] from rfl]
  rw [List.append_nil]
  rw [show List.dropWhile (fun c => decide (c ≠ 63))
      (47 :: (pystr "app/login/oauth2/authorize.nl" ++ 63 :: Q)) =
      List.dropWhile (fun c => decide (c ≠ 63))
        (pystr "app/login/oauth2/authorize.nl" ++ 63 :: Q) from rfl]
  rw [dropWhile_append_all (fun c => decide (c ≠ 63))
    (pystr "app/login/oauth2/authorize.nl") _ (by decide)]
  rw [show List.dropWhile (fun c => decide (c ≠ 63)) (63 :: Q) = 63 :: Q from rfl]
  rw [show List.map lowerAscii [104, 116, 116, 112, 115] = pystr "https" from by decide,
    show (47 :: pystr "app/login/oauth2/authorize.nl") =
      pystr "/app/login/oauth2/authorize.nl" from by decide]
  rfl

theorem natDigitsF_digits : ∀ (fuel n : Nat), ∀ x ∈ natDigitsF fuel n, 48 ≤ x ∧ x ≤ 57 := by
  intro fuel
  induction fuel with
  | zero => intro n x hx; simp [natDigitsF] at hx
  | succ f ih =>
    intro n x hx
    unfold natDigitsF at hx
    split at hx
    · simp at hx
      omega
    · rcases List.mem_append.mp hx with h | h
      · exact ih (n / 10) x h
      · simp at h
        omega

theorem generate_state_scalar (tok : PyStr) (ts : Nat) (htok : ∀ x ∈ tok, ScalarValue x) :
    ∀ x ∈ generate_state tok ts, ScalarValue x := by
  intro x hx
  unfold generate_state at hx
  rcases List.mem_append.mp hx with h | h
  · exact htok x h
  · rcases List.mem_cons.mp h with rfl | h2
    · exact ⟨by omega, Or.inl (by omega)⟩
    · have := natDigitsF_digits (ts + 1) ts x h2
      exact ⟨by omega, Or.inl (by omega)⟩

theorem generate_state_ne_nil (tok : PyStr) (ts : Nat) : generate_state tok ts ≠ [] := by
  unfold generate_state
  simp

theorem challenge_scalar (ver : PyStr) : ∀ x ∈ generate_code_challenge ver, ScalarValue x := by
  intro x hx
  have hb := (challenge_shape_aux ver).2.1 x hx
  unfold B64UrlChar at hb
  exact ⟨by omega, Or.inl (by omega)⟩

theorem challenge_ne_nil (ver : PyStr) : generate_code_challenge ver ≠ [] := by
  intro h
  have := (challenge_shape_aux ver).1
  rw [h] at this
  simp at this

theorem joinSep_mem (sep : Nat) :
    ∀ (fs : List (List Nat)) (x : Nat), x ∈ joinSep sep fs → x = sep ∨ ∃ f ∈ fs, x ∈ f := by
  intro fs
  induction fs with
  | nil => intro x hx; simp [joinSep] at hx
  | cons f rest ih =>
    cases rest with
    | nil =>
      intro x hx
      exact Or.inr ⟨f, by simp, hx⟩
    | cons g r2 =>
      intro x hx
      rw [show joinSep sep (f :: g :: r2) = f ++ sep :: joinSep sep (g :: r2) from rfl] at hx
      rcases List.mem_append.mp hx with h | h
      · exact Or.inr ⟨f, by simp, h⟩
      · rcases List.mem_cons.mp h with rfl | h2
        · exact Or.inl rfl
        · rcases ih x h2 with h3 | ⟨f2, hf2, hxf⟩
          · exact Or.inl h3
          · exact Or.inr ⟨f2, by simp [hf2], hxf⟩

theorem urlencodePy_chars (params : List (PyStr × PyStr))
    (h : ∀ kv ∈ params, (∀ x ∈ kv.1, ScalarValue x) ∧ (∀ x ∈ kv.2, ScalarValue x) ∧
      kv.2 ≠ []) :
    ∀ x ∈ urlencodePy params, 32 < x ∧ x ≠ 35 := by
  intro x hx
  rcases joinSep_mem 38 _ x hx with rfl | ⟨f, hf, hxf⟩
  · omega
  · simp only [List.mem_map] at hf
    obtain ⟨kv, hkv, rfl⟩ := hf
    obtain ⟨hk, hv, _⟩ := h kv hkv
    rcases urlencode_field_chars kv.1 kv.2 hk hv x hxf with hq | h61
    · have := quoteChar_bounds x hq
      omega
    · omega

theorem containsSub_append_right (n y : PyStr) (h : containsSub n y = true) :
    ∀ x : PyStr, containsSub n (x ++ y) = true := by
  intro x
  induction x with
  | nil => simpa using h
  | cons a t ih =>
    show containsSub n (a :: (t ++ y)) = true
    unfold containsSub
    rw [ih]
    simp

theorem urlparseE_build (A Q : PyStr) (hA : ∀ x ∈ A, AsciiAlphaNum x)
    (hQ : ∀ x ∈ Q, 32 < x ∧ x ≠ 35) :
    urlparseE (pystr "https://" ++ A ++
        pystr ".app.netsuite.com/app/login/oauth2/authorize.nl" ++ 63 :: Q) =
      Except.ok ⟨pystr "https", A ++ pystr ".app.netsuite.com",
        pystr "/app/login/oauth2/authorize.nl", [], Q, []⟩ := by
  unfold urlparseE
  rw [urlsplitE_build A Q hA hQ]
  rfl

theorem validate_url_ok_eq (url : PyStr) (p : ParseResult)
    (h : urlparseE url = Except.ok p) : validate_url url = validateChecks p := by
  unfold validate_url
  rw [h]

theorem authParams_ok (c r st ch : PyStr) (hc : ∀ x ∈ c, ScalarValue x) (hc_ne : c ≠ [])
    (hr : ∀ x ∈ r, ScalarValue x) (hr_ne : r ≠ [])
    (hst : ∀ x ∈ st, ScalarValue x) (hst_ne : st ≠ [])
    (hch : ∀ x ∈ ch, ScalarValue x) (hch_ne : ch ≠ []) :
    ∀ kv ∈ authParams c r st ch,
      (∀ x ∈ kv.1, ScalarValue x) ∧ (∀ x ∈ kv.2, ScalarValue x) ∧ kv.2 ≠ [] := by
  intro kv hkv
  simp only [authParams, List.mem_cons, List.not_mem_nil, or_false] at hkv
  rcases hkv with rfl | rfl | rfl | rfl | rfl | rfl | rfl
  · exact ⟨pystr_scalar _, pystr_scalar _, by decide⟩
  · exact ⟨pystr_scalar _, hc, hc_ne⟩
  · exact ⟨pystr_scalar _, hr, hr_ne⟩
  · exact ⟨pystr_scalar _, pystr_scalar _, by decide⟩
  · exact ⟨pystr_scalar _, hst, hst_ne⟩
  · exact ⟨pystr_scalar _, hch, hch_ne⟩
  · exact ⟨pystr_scalar _, pystr_scalar _, by decide⟩

/-- C1 amended: for every alphanumeric non-empty account id, every
NON-EMPTY client_id and redirect_uri (the original claim's "all strings"
fails: a blank value is dropped by `parse_qs`), any code verifier, and any
generated state, the authorization URL built by `build_authorization_url`
is accepted by `validate_url` with `(True, "URL is valid")`; moreover
`parse_qs` of the parsed query recovers exactly the seven required
parameters with their values — in particular the scope string survives the
urlencode/parse_qs round trip. -/
theorem build_url_validates (a c r ver tok : PyStr) (ts : Nat)
    (ha_ne : a ≠ []) (ha : ∀ x ∈ a, AsciiAlphaNum x)
    (hc : ∀ x ∈ c, ScalarValue x) (hc_ne : c ≠ [])
    (hr : ∀ x ∈ r, ScalarValue x) (hr_ne : r ≠ [])
    (htok : ∀ x ∈ tok, ScalarValue x) :
    validate_url (build_authorization_url a c r ver (generate_state tok ts)).1 =
        (true, pystr "URL is valid") ∧
      ∃ p, urlparseE (build_authorization_url a c r ver (generate_state tok ts)).1 =
          Except.ok p ∧
        parseQsl p.query =
          authParams c r (generate_state tok ts) (generate_code_challenge ver) := by
  have hP := authParams_ok c r (generate_state tok ts) (generate_code_challenge ver)
    hc hc_ne hr hr_ne (generate_state_scalar tok ts htok) (generate_state_ne_nil tok ts)
    (challenge_scalar ver) (challenge_ne_nil ver)
  have hQc := urlencodePy_chars _ hP
  have hurl : (build_authorization_url a c r ver (generate_state tok ts)).1 =
      pystr "https://" ++ a ++ pystr ".app.netsuite.com/app/login/oauth2/authorize.nl" ++
        63 :: urlencodePy (authParams c r (generate_state tok ts)
          (generate_code_challenge ver)) := rfl
  have hparse := urlparseE_build a _ ha hQc
  rw [← hurl] at hparse
  have hqsl := parseQsl_urlencode _ hP
  refine ⟨?_, ⟨_, hparse, hqsl⟩⟩
  rw [validate_url_ok_eq _ _ hparse]
  unfold validateChecks
  simp only []
  rw [if_neg (show ¬(pystr "https" ≠ pystr "https") from by simp)]
  rw [if_neg (show ¬¬(containsSub (pystr "netsuite.com")
      (a ++ pystr ".app.netsuite.com") = true) from
    not_not_intro (containsSub_append_right _ _ (by decide) a))]
  rw [if_neg (show ¬¬(endsWithPy (pystr "/app/login/oauth2/authorize.nl")
      (pystr "/app/login/oauth2/authorize.nl") = true) from by decide)]
  rw [hqsl]
  rw [show List.find? (fun k => ! qsHas (authParams c r (generate_state tok ts)
      (generate_code_challenge ver)) k) requiredParams = none from rfl]
  simp only []
  rw [if_neg (show ¬(qsFirst (authParams c r (generate_state tok ts)
      (generate_code_challenge ver)) (pystr "response_type") ≠ some (pystr "code"))
      from not_ne_iff.mpr rfl)]
  rw [if_neg (show ¬(qsFirst (authParams c r (generate_state tok ts)
      (generate_code_challenge ver)) (pystr "code_challenge_method") ≠
      some (pystr "S256")) from not_ne_iff.mpr rfl)]
  rw [if_neg (show ¬(qsFirst (authParams c r (generate_state tok ts)
      (generate_code_challenge ver)) (pystr "scope") ≠
      some (pystr "restlets rest_webservices")) from not_ne_iff.mpr rfl)]

/-- C1 counterexample: at a concrete instance of the claim's setting —
alphanumeric non-empty account id `123456`, a possible generated verifier
and state, but `client_id` the empty string (the claim quantifies over all
strings) — `validate_url` rejects the generated URL, because `parse_qs`
with default `keep_blank_values=False` drops the blank parameter. -/
theorem build_url_empty_client_rejected :
    validate_url (build_authorization_url (pystr "123456") (pystr "")
        (pystr "fieldpay://callback")
        (pystr "aaaaaaaaaaaaaaaaaaaaaaaaaaaaaaaaaaaaaaaaaaa")
        (generate_state (pystr "tok") 123)).1 =
      (false, pystr "Missing required parameter: client_id") := by decide

/-- Closed witness for the amended C1 at concrete inputs. -/
theorem build_url_validates_witness :
    ((pystr "123456" : PyStr) ≠ [] ∧ (∀ x ∈ pystr "123456", AsciiAlphaNum x) ∧
      (∀ x ∈ pystr "test_client_id", ScalarValue x) ∧
      (pystr "test_client_id" : PyStr) ≠ [] ∧
      (∀ x ∈ pystr "fieldpay://callback", ScalarValue x) ∧
      (pystr "fieldpay://callback" : PyStr) ≠ [] ∧
      (∀ x ∈ pystr "tok", ScalarValue x)) ∧
    validate_url (build_authorization_url (pystr "123456") (pystr "test_client_id")
        (pystr "fieldpay://callback")
        (pystr "aaaaaaaaaaaaaaaaaaaaaaaaaaaaaaaaaaaaaaaaaaa")
        (generate_state (pystr "tok") 123)).1 = (true, pystr "URL is valid") :=
  ⟨⟨by decide, by decide, pystr_scalar _, by decide, pystr_scalar _, by decide,
    pystr_scalar _⟩,
    (build_url_validates (pystr "123456") (pystr "test_client_id")
      (pystr "fieldpay://callback") (pystr "aaaaaaaaaaaaaaaaaaaaaaaaaaaaaaaaaaaaaaaaaaa")
      (pystr "tok") 123 (by decide) (by decide) (pystr_scalar _) (by decide)
      (pystr_scalar _) (by decide) (pystr_scalar _)).1⟩
